import Mathlib

/-!
Verification of the benthos configuration-driven pipeline assembly core.

Part A embeds `src/lib/output/plugin.go`: the process-wide output plugin
registry (`pluginSpecs`) and its operations `RegisterPlugin`,
`DocumentPlugin`, `GetDeprecatedPlugin`, `PluginCount` and
`PluginDescriptions`.  The Go map `map[string]pluginSpec` is embedded as an
association list whose keys are unique; Go function values (constructors,
config factories, sanitisers) are opaque handles, since no claim inspects
their behaviour, only their identity and placement in the registry.

Part B models the pipeline assembler (`lib/service/test` processors
provider), whose implementation is not part of the given sources (only its
tests are): those definitions are modelled from the spec, as marked in
their doc comments.
-/

namespace Benthos

/-- Opaque handle standing for a Go `PluginConstructor` function value
(`plugin.go` lines 25-30).  Only identity matters to the claims. -/
abbrev PluginConstructor := Nat

/-- Opaque handle standing for a Go `PluginConfigConstructor` function value
(`plugin.go` line 34). -/
abbrev PluginConfigConstructor := Nat

/-- Opaque handle standing for a Go `PluginConfigSanitiser` function value
(`plugin.go` line 43). -/
abbrev PluginConfigSanitiser := Nat

/-- The internal `outputConstructor` stored in a spec.  `RegisterPlugin`
stores `fromSimpleConstructor(...)` wrapping the plugin constructor it was
given (`plugin.go` lines 74-81); the wrapper is kept as a constructor so the
provenance of the stored value is visible in theorems. -/
inductive OutputConstructor where
  | fromSimple (c : PluginConstructor)
deriving DecidableEq, Repr

/-- `pluginSpec` (`plugin.go` lines 45-50).  Go nil function fields are
`none`; the zero value of the struct is `pluginSpecZero`. -/
structure pluginSpec where
  constructor : Option OutputConstructor
  confConstructor : Option PluginConfigConstructor
  confSanitiser : Option PluginConfigSanitiser
  description : String
deriving DecidableEq, Repr

/-- The zero value `pluginSpec{}` a Go map read yields on a missing key. -/
def pluginSpecZero : pluginSpec :=
  { constructor := none, confConstructor := none
    confSanitiser := none, description := "" }

/-- The registry `pluginSpecs map[string]pluginSpec` (`plugin.go` line 53),
as an association list with unique keys. -/
abbrev Registry := List (String × pluginSpec)

/-- Association-list lookup (Go `spec, ok := pluginSpecs[name]`). -/
def lookupSpec : Registry → String → Option pluginSpec
  | [], _ => none
  | (k, v) :: rest, tag => if k = tag then some v else lookupSpec rest tag

/-- Go map *index* read `pluginSpecs[typeString]`: the zero value on a miss. -/
def getSpec (specs : Registry) (tag : String) : pluginSpec :=
  (lookupSpec specs tag).getD pluginSpecZero

/-- Go map store `pluginSpecs[typeString] = spec`: replace in place, or
append when the key is new. -/
def storeSpec : Registry → String → pluginSpec → Registry
  | [], tag, v => [(tag, v)]
  | (k, w) :: rest, tag, v =>
      if k = tag then (tag, v) :: rest else (k, w) :: storeSpec rest tag v

/-- `RegisterPlugin` (`plugin.go` lines 68-85): reads the current spec for
the tag (zero value when absent), overwrites its constructor with the
`fromSimpleConstructor` wrapper of the given constructor and its config
constructor with the given one, and stores the result back.  The call to
the external `plugins.Add` bookkeeping package has no effect on this
registry and is not modelled.  The function is total: it never fails. -/
def RegisterPlugin (typeString : String)
    (configConstructor : Option PluginConfigConstructor)
    (constructor : PluginConstructor) (specs : Registry) : Registry :=
  let spec := getSpec specs typeString
  let spec := { spec with
    constructor := some (.fromSimple constructor)
    confConstructor := configConstructor }
  storeSpec specs typeString spec

/-- `GetDeprecatedPlugin` (`plugin.go` lines 56-62): `(nil, false)` on a
miss, otherwise the stored constructor (converted, which preserves Go nil)
together with `true`. -/
def GetDeprecatedPlugin (specs : Registry) (name : String) :
    Option OutputConstructor × Bool :=
  match lookupSpec specs name with
  | none => (none, false)
  | some spec => (spec.constructor, true)

/-- `DocumentPlugin` (`plugin.go` lines 90-98): reads the current spec for
the tag (zero value when absent), overwrites description and sanitiser,
stores back. -/
def DocumentPlugin (typeString description : String)
    (configSanitiser : Option PluginConfigSanitiser)
    (specs : Registry) : Registry :=
  let spec := getSpec specs typeString
  storeSpec specs typeString
    { spec with description := description, confSanitiser := configSanitiser }

/-- `PluginCount` (`plugin.go` lines 102-104): `len(pluginSpecs)`. -/
def PluginCount (specs : Registry) : Nat := specs.length

/-- The `pluginHeader` document preamble (`plugin.go` lines 108-111). -/
def pluginHeader : String :=
  "This document was generated with `benthos --list-output-plugins`." ++
  "\n\nThis document lists any output plugins that this flavour of Benthos offers\nbeyond the standard set."

/-- The alphabetically sorted name list `PluginDescriptions` iterates over
(`plugin.go` lines 117-121: collect the map keys, `sort.Strings`). -/
def pluginNames (specs : Registry) : List String :=
  List.insertionSort (· ≤ ·) (specs.map Prod.fst)

/-- The `### Contents` index lines (`plugin.go` lines 131-133):
one `"%v. [`name`](#name)\n"` line per name, numbered from `i+1`. -/
def contentsLines : Nat → List String → String
  | _, [] => ""
  | i, name :: rest =>
      toString (i + 1) ++ ". [`" ++ name ++ "`](#" ++ name ++ ")\n" ++
      contentsLines (i + 1) rest

/-- One per-plugin section (`plugin.go` lines 142-170).  The example-config
bytes come from `NewConfig`/`SanitiseConfig`/`config.MarshalYAML`, which are
outside the given sources; they are abstracted as `marshalConf`, a function
of the plugin name and its config-constructor handle returning the rendered
YAML, or `none` when sanitising fails (in Go, `confBytes` then stays nil). -/
def sectionFor (marshalConf : String → PluginConfigConstructor → Option String)
    (specs : Registry) (total i : Nat) (name : String) : String :=
  let spec := getSpec specs name
  let confBytes : Option String :=
    match spec.confConstructor with
    | some ctor => marshalConf name ctor
    | none => none
  "## " ++ "`" ++ name ++ "`" ++ "\n" ++
  (match confBytes with
   | some b => "\n``` yaml\n" ++ b ++ "```\n"
   | none => "") ++
  (if spec.description.length > 0 then "\n" ++ spec.description ++ "\n"
   else "") ++
  (if i ≠ total - 1 then "\n" else "")

/-- All per-plugin sections in order, tracking the index `i`. -/
def sectionsFor (marshalConf : String → PluginConfigConstructor → Option String)
    (specs : Registry) (total : Nat) : Nat → List String → String
  | _, [] => ""
  | i, name :: rest =>
      sectionFor marshalConf specs total i name ++
      sectionsFor marshalConf specs total (i + 1) rest

/-- `PluginDescriptions` (`plugin.go` lines 115-172): header, sorted
contents index, then one section per plugin in the same sorted order. -/
def PluginDescriptions
    (marshalConf : String → PluginConfigConstructor → Option String)
    (specs : Registry) : String :=
  let names := pluginNames specs
  "Output Plugins\n" ++ "==============" ++ "\n\n" ++ pluginHeader ++
  "\n\n" ++ "### Contents\n\n" ++ contentsLines 0 names ++
  (if names.length = 0 then "There are no plugins loaded." else "\n") ++
  sectionsFor marshalConf specs names.length 0 names

/-! ## Part B — the pipeline assembler

The processors provider of `lib/service/test` is exercised by the given
tests (`src/unnamed/part_000`) but its implementation is not among the
given sources, so the definitions below are modelled from the spec
(sections 3, 4.1-4.5, 4.7), as their doc comments record. -/

/-- Modelled from the spec: §3 Document — an immutable parsed tree of
nested maps, sequences and scalar strings. -/
inductive Node where
  | scalar (s : String)
  | seq (xs : List Node)
  | map (kvs : List (String × Node))

/-- Generic association-list lookup, the first binding of a key wins. -/
def alookup {α : Type} : List (String × α) → String → Option α
  | [], _ => none
  | (k, v) :: rest, key => if k = key then some v else alookup rest key

/-- Split a character list at every occurrence of `sep` (the segments do
not contain `sep`; n separators yield n+1 segments). -/
def splitOnChar (sep : Char) : List Char → List (List Char)
  | [] => [[]]
  | c :: rest =>
      if c = sep then [] :: splitOnChar sep rest
      else
        match splitOnChar sep rest with
        | [] => [[c]]
        | seg :: segs => (c :: seg) :: segs

/-- Modelled from the spec: §4.2 pointer syntax — leading slash,
slash-separated segments; the empty and `"/"` pointers select the whole
document. -/
def parsePointer (s : String) : List String :=
  ((splitOnChar '/' s.data).filter (fun seg => seg ≠ [])).map String.mk

/-- Modelled from the spec: §4.2 — the distinguished navigation failure
causes, each carrying the failing segment and its position. -/
inductive PathErr where
  | missingKey (seg : String) (pos : Nat)
  | notAContainer (seg : String) (pos : Nat)
  | badIndex (seg : String) (pos : Nat)
  | indexOutOfRange (seg : String) (pos : Nat)
deriving DecidableEq, Repr

/-- Modelled from the spec: §4.2 `navigate(doc, pointer)` — a segment is a
mapping key or, when the current node is a sequence, a nonnegative integer
index; missing key, non-container, non-numeric index and out-of-range
index are distinguished failures. -/
def navigate : Node → List String → Nat → Except PathErr Node
  | node, [], _ => .ok node
  | .map kvs, seg :: rest, pos =>
      match alookup kvs seg with
      | some child => navigate child rest (pos + 1)
      | none => .error (.missingKey seg pos)
  | .seq xs, seg :: rest, pos =>
      match seg.toNat? with
      | some i =>
          match xs[i]? with
          | some child => navigate child rest (pos + 1)
          | none => .error (.indexOutOfRange seg pos)
      | none => .error (.badIndex seg pos)
  | .scalar _, seg :: _, pos => .error (.notAContainer seg pos)

/-- The character with code point 123, the opening placeholder brace. -/
def lbrace : Char := Char.ofNat 123

/-- The character with code point 125, the closing placeholder brace. -/
def rbrace : Char := Char.ofNat 125

/-- Modelled from the spec: §4.4 — the body of a `${...}` placeholder is a
name, optionally followed by a colon and literal default text. -/
def splitBody (body : List Char) : String × Option String :=
  let name := body.takeWhile (fun c => c ≠ ':')
  match body.dropWhile (fun c => c ≠ ':') with
  | [] => (String.mk name, none)
  | _ :: ds => (String.mk name, some (String.mk ds))

/-- Modelled from the spec: §4.4 resolution order per placeholder — the
override value for the name if present (verbatim), else the literal
default text if the `:default` clause is present, else the empty string. -/
def resolvePlaceholder (ov : List (String × String)) (body : List Char) :
    String :=
  match splitBody body with
  | (name, dflt) =>
      match alookup ov name with
      | some v => v
      | none => dflt.getD ""

/-- Modelled from the spec: §4.4 — scan a scalar's characters left to
right, replacing each non-overlapping `${...}` placeholder independently;
text without a matching closing brace is left untouched. -/
def interpChars (ov : List (String × String)) : List Char → List Char
  | [] => []
  | c :: rest =>
      if c = '$' then
        match rest with
        | [] => [c]
        | c2 :: rest2 =>
            if c2 = lbrace then
              let body := rest2.takeWhile (fun d => d ≠ rbrace)
              let after := rest2.dropWhile (fun d => d ≠ rbrace)
              have _hlen : (rest2.dropWhile (fun d => d ≠ rbrace)).length ≤
                  rest2.length :=
                (List.dropWhile_sublist (fun d => d ≠ rbrace)).length_le
              if _h : after = [] then c :: c2 :: interpChars ov rest2
              else (resolvePlaceholder ov body).data ++ interpChars ov after.tail
            else c :: c2 :: interpChars ov rest2
      else c :: interpChars ov rest
termination_by l => l.length
decreasing_by
all_goals simp only [List.length_cons, List.length_tail]
all_goals omega

/-- Modelled from the spec: §4.4 — placeholder substitution over one
scalar string. -/
def interpString (ov : List (String × String)) (s : String) : String :=
  String.mk (interpChars ov s.data)

mutual
/-- Modelled from the spec: §4.4 `interpolate(tree, overrides)` —
recursively walks every scalar string in the tree and substitutes its
placeholders. -/
def interpNode (ov : List (String × String)) : Node → Node
  | .scalar s => .scalar (interpString ov s)
  | .seq xs => .seq (interpNodeList ov xs)
  | .map kvs => .map (interpNodeMap ov kvs)

/-- Interpolation over the children of a sequence node. -/
def interpNodeList (ov : List (String × String)) : List Node → List Node
  | [] => []
  | x :: xs => interpNode ov x :: interpNodeList ov xs

/-- Interpolation over the entries of a mapping node (keys untouched). -/
def interpNodeMap (ov : List (String × String)) :
    List (String × Node) → List (String × Node)
  | [] => []
  | (k, v) :: xs => (k, interpNode ov v) :: interpNodeMap ov xs
end

/-- Modelled from the spec: §3 ResourceSet — category name → resource
name → raw config node. -/
abbrev ResourceSet := List (String × List (String × Node))

/-- Modelled from the spec: §4.5 — the error naming the offending extra
file, the category and the resource name. -/
structure ResourceCollision where
  file : String
  category : String
  name : String
deriving DecidableEq, Repr

/-- All (category, name) pairs of a resource set. -/
def rsPairs (rs : ResourceSet) : List (String × String) :=
  rs.flatMap (fun cn => cn.2.map (fun nv => (cn.1, nv.1)))

/-- The size of a resource set: its number of (category, name) pairs. -/
def rsSize (rs : ResourceSet) : Nat := (rsPairs rs).length

/-- Modelled from the spec: §4.5 — add one named resource config under a
category, creating the category on first use. -/
def rsInsert (rs : ResourceSet) (cat name : String) (conf : Node) :
    ResourceSet :=
  match rs with
  | [] => [(cat, [(name, conf)])]
  | (c, ns) :: rest =>
      if c = cat then (c, ns ++ [(name, conf)]) :: rest
      else (c, ns) :: rsInsert rest cat name conf

/-- Modelled from the spec: §4.5 — one (category, name) contribution from
the extra document `file`: if the pair already exists in the accumulated
set, merging fails immediately, naming the offending extra file, category
and name. -/
def addResource (acc : ResourceSet) (file cat name : String) (conf : Node) :
    Except ResourceCollision ResourceSet :=
  if (cat, name) ∈ rsPairs acc then .error ⟨file, cat, name⟩
  else .ok (rsInsert acc cat name conf)

/-- Fold `addResource` over the named resources of one category of an
extra document. -/
def mergeNames (acc : ResourceSet) (file cat : String) :
    List (String × Node) → Except ResourceCollision ResourceSet
  | [] => .ok acc
  | (name, conf) :: rest =>
      match addResource acc file cat name conf with
      | .error e => .error e
      | .ok acc2 => mergeNames acc2 file cat rest

/-- Merge every category of one extra document into the accumulated set. -/
def mergeDoc (acc : ResourceSet) (file : String) :
    ResourceSet → Except ResourceCollision ResourceSet
  | [] => .ok acc
  | (cat, ns) :: rest =>
      match mergeNames acc file cat ns with
      | .error e => .error e
      | .ok acc2 => mergeDoc acc2 file rest

/-- Modelled from the spec: §4.5 `merge(primaryResources, extraDocs[])` —
start from the primary document's resource section and process extra
documents strictly in caller-supplied order; no partial merge is committed
on failure. -/
def merge (primary : ResourceSet) :
    List (String × ResourceSet) → Except ResourceCollision ResourceSet
  | [] => .ok primary
  | (file, rs) :: rest =>
      match mergeDoc primary file rs with
      | .error e => .error e
      | .ok acc2 => merge acc2 rest

/-- Modelled from the spec: §4.1 — a stored file either fails to parse or
yields a Document. -/
inductive FileContent where
  | invalid
  | valid (doc : Node)

/-- Modelled from the spec: §4.1 Document Store — parsed trees keyed by
canonical file path; the store is the per-request cache. -/
abbrev Store := List (String × FileContent)

/-- Modelled from the spec: §4.1 load errors. -/
inductive LoadErr where
  | fileNotFound (path : String)
  | parseError (path : String)
deriving DecidableEq, Repr

/-- Modelled from the spec: §4.1 `load(path)` — `FileNotFound` when the
path is absent, `ParseError` when its content is syntactically invalid. -/
def loadDoc (store : Store) (path : String) : Except LoadErr Node :=
  match alookup store path with
  | none => .error (.fileNotFound path)
  | some .invalid => .error (.parseError path)
  | some (.valid doc) => .ok doc

/-- The literal reference key. -/
def refKey : String := "$ref"

/-- Join segments with a separator character (inverse of `splitOnChar`). -/
def joinWith (sep : Char) : List (List Char) → List Char
  | [] => []
  | [seg] => seg
  | seg :: rest => seg ++ sep :: joinWith sep rest

/-- Modelled from the spec: §4.3 — the directory of a document path, for
resolving a relative reference target. -/
def dirOf (p : String) : String :=
  String.mk (joinWith '/' ((splitOnChar '/' p.data).dropLast))

/-- Strip a leading `./` from a relative reference path. -/
def normRelChars : List Char → List Char
  | '.' :: '/' :: rest => rest
  | l => l

/-- Modelled from the spec: §4.3 — a reference value must match
`<relativeOrAbsolutePath>#<pointer>`; a relative path is resolved against
the directory of the current document's path, an absolute one (leading
slash) is used as is. -/
def parseRef (curPath raw : String) : Option (String × String) :=
  match splitOnChar '#' raw.data with
  | [p, ptr] =>
      match p with
      | '/' :: _ => some (String.mk p, String.mk ptr)
      | _ => some (dirOf curPath ++ "/" ++ String.mk (normRelChars p),
          String.mk ptr)
  | _ => none

/-- Modelled from the spec: §4.3 expansion failures.  `depthExhausted` is
an artifact of the embedding's explicit recursion bound and is proved (C4)
never to arise once the bound exceeds the reference-chain length; cycles
are caught by the stack guard at every bound. -/
inductive ExpErr where
  | badReferenceSyntax (raw : String)
  | referenceCycle (path ptr : String)
  | referenceTargetNotFound (path ptr : String)
  | depthExhausted
deriving DecidableEq, Repr

mutual
/-- Modelled from the spec: §4.3 `expand(node, currentDocPath)` — a node
is a reference iff it is a mapping with exactly one key, literally `$ref`,
whose scalar value matches `<path>#<pointer>`; the target is loaded,
navigated to, and itself recursively expanded relative to the target
document, with a call stack of in-progress (docPath, pointer) pairs
failing fast on revisits with `ReferenceCycle`. -/
def expandNode (store : Store) (fuel : Nat) (stack : List (String × String))
    (curPath : String) : Node → Except ExpErr Node
  | .scalar s => .ok (.scalar s)
  | .seq xs =>
      match expandList store fuel stack curPath xs with
      | .ok ys => .ok (.seq ys)
      | .error e => .error e
  | .map [(k, v)] =>
      if k = refKey then
        match v with
        | .scalar raw =>
            match parseRef curPath raw with
            | none => .error (.badReferenceSyntax raw)
            | some (p, ptr) =>
                if (p, ptr) ∈ stack then .error (.referenceCycle p ptr)
                else
                  match fuel with
                  | 0 => .error .depthExhausted
                  | fuel' + 1 =>
                      match loadDoc store p with
                      | .error _ => .error (.referenceTargetNotFound p ptr)
                      | .ok doc =>
                          match navigate doc (parsePointer ptr) 0 with
                          | .error _ =>
                              .error (.referenceTargetNotFound p ptr)
                          | .ok target =>
                              expandNode store fuel' ((p, ptr) :: stack)
                                p target
        | _ => .error (.badReferenceSyntax refKey)
      else
        match expandMap store fuel stack curPath [(k, v)] with
        | .ok ys => .ok (.map ys)
        | .error e => .error e
  | .map kvs =>
      match expandMap store fuel stack curPath kvs with
      | .ok ys => .ok (.map ys)
      | .error e => .error e
termination_by n => (fuel, sizeOf n)

/-- Expansion over the children of a sequence node. -/
def expandList (store : Store) (fuel : Nat) (stack : List (String × String))
    (curPath : String) : List Node → Except ExpErr (List Node)
  | [] => .ok []
  | x :: xs =>
      match expandNode store fuel stack curPath x with
      | .error e => .error e
      | .ok y =>
          match expandList store fuel stack curPath xs with
          | .error e => .error e
          | .ok ys => .ok (y :: ys)
termination_by xs => (fuel, sizeOf xs)

/-- Expansion over the entries of a mapping node (keys untouched). -/
def expandMap (store : Store) (fuel : Nat) (stack : List (String × String))
    (curPath : String) :
    List (String × Node) → Except ExpErr (List (String × Node))
  | [] => .ok []
  | (k, v) :: xs =>
      match expandNode store fuel stack curPath v with
      | .error e => .error e
      | .ok w =>
          match expandMap store fuel stack curPath xs with
          | .error e => .error e
          | .ok ws => .ok ((k, w) :: ws)
termination_by kvs => (fuel, sizeOf kvs)
end

/-- Modelled from the spec: §4.7 and §7 — the assembler's error taxonomy
restricted to the steps modelled here. -/
inductive ProvideErr where
  | fileNotFound (path : String)
  | parseError (path : String)
  | expansion (e : ExpErr)
  | pathNotFound (e : PathErr)
  | resourceCollision (c : ResourceCollision)
  | unknownType (tag : String)
  | invalidStageList
deriving DecidableEq, Repr

/-- Modelled from the spec: §4.6 — the process-wide type registry as seen
by the assembler: the primary set of registered type tags and the
deprecated-alias fallback set.  Constructors stay abstract since no claim
inspects constructed objects. -/
structure Registries where
  primary : List String
  deprecated : List String

/-- A constructed stage, kept as its (type tag, resolved config) pair. -/
abbrev Stage := String × Node

/-- Modelled from the spec: §3 ResourceSet — the `resources` section of a
document, read as category → name → raw config node. -/
def resourcesOf (doc : Node) : ResourceSet :=
  match doc with
  | .map kvs =>
      match alookup kvs "resources" with
      | some (.map cats) =>
          cats.filterMap (fun cp =>
            match cp.2 with
            | .map ns => some (cp.1, ns)
            | _ => none)
      | _ => []
  | _ => []

/-- Modelled from the spec: §4.7 step 6 — each entry of the stage sequence
must be a single-key mapping from a type tag to the stage's raw config;
the tag is looked up in the primary registry, falling back to the
deprecated registry on a miss, and `UnknownType` when both miss. -/
def buildStages (reg : Registries) : List Node → Except ProvideErr (List Stage)
  | [] => .ok []
  | .map [(tag, conf)] :: rest =>
      if tag ∈ reg.primary ∨ tag ∈ reg.deprecated then
        match buildStages reg rest with
        | .error e => .error e
        | .ok stages => .ok ((tag, conf) :: stages)
      else .error (.unknownType tag)
  | _ :: _ => .error .invalidStageList

mutual
/-- The number of nodes of a document tree. -/
def nodeCount : Node → Nat
  | .scalar _ => 1
  | .seq xs => 1 + nodeListCount xs
  | .map kvs => 1 + nodeMapCount kvs

/-- The number of nodes of a list of trees. -/
def nodeListCount : List Node → Nat
  | [] => 0
  | x :: xs => nodeCount x + nodeListCount xs

/-- The number of nodes of the values of a mapping. -/
def nodeMapCount : List (String × Node) → Nat
  | [] => 0
  | (_, v) :: xs => nodeCount v + nodeMapCount xs
end

/-- The stored size of one file. -/
def fileSize : FileContent → Nat
  | .invalid => 1
  | .valid doc => 1 + nodeCount doc

/-- A recursion bound for reference expansion inside `provide`: beyond the
total stored size, hence beyond the length of any non-revisiting
reference chain through the store. -/
def storeFuel (store : Store) : Nat :=
  1 + store.foldr (fun p acc => acc + fileSize p.2) 0

/-- Modelled from the spec: §4.7 step 4 — load each extra resource
document in caller-supplied order, expand and interpolate it the same way
as the primary, and merge its resource section into the accumulated set. -/
def provideExtras (store : Store) (ov : List (String × String)) :
    ResourceSet → List String → Except ProvideErr ResourceSet
  | acc, [] => .ok acc
  | acc, path :: rest =>
      match alookup store path with
      | none => .error (.fileNotFound path)
      | some .invalid => .error (.parseError path)
      | some (.valid d0) =>
          match expandNode store (storeFuel store) [] path d0 with
          | .error e => .error (.expansion e)
          | .ok d1 =>
              match mergeDoc acc path (resourcesOf (interpNode ov d1)) with
              | .error c => .error (.resourceCollision c)
              | .ok acc2 => provideExtras store ov acc2 rest

/-- Modelled from the spec: §4.7 `Provide(primaryPath, subPath,
envOverrides, extraResourcePaths)` — strictly in order: load the primary
document, expand references, interpolate placeholders, merge extra
resource documents, navigate to the sub-path, and build the stage list;
every error returns immediately with no stage list.  The default-config
overlay and constructor invocation of step 6 stay abstract (a constructed
stage is its tag and resolved config), since no claim inspects them. -/
def provide (store : Store) (reg : Registries) (primaryPath subPath : String)
    (ov : List (String × String)) (extraPaths : List String) :
    Except ProvideErr (List Stage) :=
  match alookup store primaryPath with
  | none => .error (.fileNotFound primaryPath)
  | some .invalid => .error (.parseError primaryPath)
  | some (.valid doc0) =>
      match expandNode store (storeFuel store) [] primaryPath doc0 with
      | .error e => .error (.expansion e)
      | .ok doc1 =>
          let doc := interpNode ov doc1
          match provideExtras store ov (resourcesOf doc) extraPaths with
          | .error e => .error e
          | .ok _ =>
              match navigate doc (parsePointer subPath) 0 with
              | .error e => .error (.pathNotFound e)
              | .ok node =>
                  match node with
                  | .seq entries => buildStages reg entries
                  | _ => .error .invalidStageList

mutual
/-- A node containing no `$ref` reference node anywhere (spec §8: on such
a tree, expansion is a no-op). -/
def refFree : Node → Bool
  | .scalar _ => true
  | .seq xs => refFreeList xs
  | .map kvs =>
      (match kvs with
       | [(k, _)] => decide (k ≠ refKey)
       | _ => true) && refFreeMap kvs

/-- `refFree` over the children of a sequence. -/
def refFreeList : List Node → Bool
  | [] => true
  | x :: xs => refFree x && refFreeList xs

/-- `refFree` over the values of a mapping. -/
def refFreeMap : List (String × Node) → Bool
  | [] => true
  | (_, v) :: xs => refFree v && refFreeMap xs
end

/-- Modelled from the spec: §4.3 / §8 — a reference chain: starting from
the (path, pointer) pair `(p, ptr)`, each hop loads the path, navigates
the pointer to a `$ref` node whose reference (resolved relative to that
document's path) is the next pair; the chain's remaining pairs are listed
in order, and the final pair's pointer resolves to the ref-free value `v`
(the fully inlined tree of the chain). -/
inductive RefChain (store : Store) :
    String → String → List (String × String) → Node → Prop
  | last (p ptr : String) (doc v : Node)
      (hload : loadDoc store p = .ok doc)
      (hnav : navigate doc (parsePointer ptr) 0 = .ok v)
      (hfree : refFree v = true) :
      RefChain store p ptr [] v
  | step (p ptr : String) (doc : Node) (raw p2 ptr2 : String)
      (rest : List (String × String)) (v : Node)
      (hload : loadDoc store p = .ok doc)
      (hnav : navigate doc (parsePointer ptr) 0 =
        .ok (.map [(refKey, .scalar raw)]))
      (hparse : parseRef p raw = some (p2, ptr2))
      (hrest : RefChain store p2 ptr2 rest v) :
      RefChain store p ptr ((p2, ptr2) :: rest) v

/-- Modelled from the spec: §4.3 / §8 — a reference chain whose final
target is itself a `$ref` node pointing back at the pair `qc`: when `qc`
is one of the chain's own in-progress pairs, the chain is a cycle. -/
inductive RefChainCycle (store : Store) :
    String → String → List (String × String) → String × String → Prop
  | last (p ptr : String) (doc : Node) (raw : String) (qc : String × String)
      (hload : loadDoc store p = .ok doc)
      (hnav : navigate doc (parsePointer ptr) 0 =
        .ok (.map [(refKey, .scalar raw)]))
      (hparse : parseRef p raw = some qc) :
      RefChainCycle store p ptr [] qc
  | step (p ptr : String) (doc : Node) (raw p2 ptr2 : String)
      (rest : List (String × String)) (qc : String × String)
      (hload : loadDoc store p = .ok doc)
      (hnav : navigate doc (parsePointer ptr) 0 =
        .ok (.map [(refKey, .scalar raw)]))
      (hparse : parseRef p raw = some (p2, ptr2))
      (hrest : RefChainCycle store p2 ptr2 rest qc) :
      RefChainCycle store p ptr ((p2, ptr2) :: rest) qc

/-- The raw stage sequence of the C4 fixtures (one placeholder-bearing
`metadata` stage). -/
def c4Procs : Node :=
  .seq [.map [("metadata",
    .map [("value", .scalar "$\x7bFOO_VAR:defaultvalue\x7d")])]]

/-- The one-stage pipeline document behind the C4 reference fixtures,
mirroring `config1.yaml` of `TestProcessorsProvider` (shortened to the
placeholder-bearing stage). -/
def c4Doc1 : Node :=
  .map [("pipeline", .map [("processors", c4Procs)])]

/-- A document whose stage sequence is declared entirely via `$ref` into
`c4Doc1`'s stage sub-path, mirroring `config2.yaml` of
`TestProcessorsProvider`. -/
def c4Doc2 : Node :=
  .map [("pipeline", .map [("processors",
    .map [("$ref", .scalar "/t/c4a.yaml#/pipeline/processors")])])]

/-- A document whose sub-path `/x` holds a reference to itself. -/
def c4CycleDoc : Node :=
  .map [("x", .map [("$ref", .scalar "/t/c4cycle.yaml#/x")])]

/-- The C4 fixture store. -/
def c4Store : Store :=
  [("/t/c4a.yaml", .valid c4Doc1), ("/t/c4b.yaml", .valid c4Doc2),
   ("/t/c4cycle.yaml", .valid c4CycleDoc)]

/-- Registries knowing the `metadata` stage type of the C4 fixtures. -/
def c4Regs : Registries := { primary := ["metadata"], deprecated := [] }

/-- A concrete document with a one-stage `text` pipeline, mirroring
`config2.yaml` of `TestProcessorsProviderErrors`; used by closed witness
statements. -/
def exDocText : Node :=
  .map [("pipeline", .map [("processors",
    .seq [.map [("text", .map [])]])])]

/-- A concrete document whose stage names an unregistered type, mirroring
`config3.yaml` of `TestProcessorsProviderErrors`. -/
def exDocUnknown : Node :=
  .map [("pipeline", .map [("processors",
    .seq [.map [("doesnotexist", .map [])]])])]

/-- A concrete store with an unparsable file and the two documents above,
mirroring the `TestProcessorsProviderErrors` fixture set. -/
def exStore : Store :=
  [("/t/config1.yaml", .invalid), ("/t/config2.yaml", .valid exDocText),
   ("/t/config3.yaml", .valid exDocUnknown)]

/-- Concrete registries knowing only the `text` stage type. -/
def exRegs : Registries := { primary := ["text"], deprecated := [] }

/-- A concrete one-entry registry used by closed witness statements. -/
def exReg : Registry :=
  [("t", { constructor := some (.fromSimple 1), confConstructor := some 2
           confSanitiser := some 3, description := "desc" })]

/-! ### Registry helper lemmas -/

theorem lookupSpec_store_self (l : Registry) (tag : String) (v : pluginSpec) :
    lookupSpec (storeSpec l tag v) tag = some v := by
  induction l with
  | nil => simp [storeSpec, lookupSpec]
  | cons p rest ih =>
    obtain ⟨k, w⟩ := p
    by_cases h : k = tag
    · simp [storeSpec, h, lookupSpec]
    · simp [storeSpec, h, lookupSpec, ih]

theorem lookupSpec_store_other (l : Registry) (tag k : String)
    (v : pluginSpec) (h : k ≠ tag) :
    lookupSpec (storeSpec l tag v) k = lookupSpec l k := by
  induction l with
  | nil => simp [storeSpec, lookupSpec, Ne.symm h]
  | cons p rest ih =>
    obtain ⟨k2, w⟩ := p
    by_cases h2 : k2 = tag
    · subst h2
      simp [storeSpec, lookupSpec, Ne.symm h]
    · simp [storeSpec, h2, lookupSpec, ih]

theorem keys_storeSpec (l : Registry) (tag : String) (v : pluginSpec) :
    (storeSpec l tag v).map Prod.fst =
      if tag ∈ l.map Prod.fst then l.map Prod.fst
      else l.map Prod.fst ++ [tag] := by
  induction l with
  | nil => simp [storeSpec]
  | cons p rest ih =>
    obtain ⟨k, w⟩ := p
    by_cases h : k = tag
    · subst h; simp [storeSpec]
    · have hne : ¬ tag = k := fun h2 => h h2.symm
      by_cases h2 : tag ∈ rest.map Prod.fst <;>
        simp [storeSpec, h, ih, h2, hne]

theorem lookupSpec_eq_none_iff (l : Registry) (tag : String) :
    lookupSpec l tag = none ↔ tag ∉ l.map Prod.fst := by
  induction l with
  | nil => simp [lookupSpec]
  | cons p rest ih =>
    obtain ⟨k, w⟩ := p
    by_cases h : k = tag
    · subst h; simp [lookupSpec]
    · simp [lookupSpec, h, ih, Ne.symm h]

theorem keys_storeSpec_nodup (l : Registry) (tag : String) (v : pluginSpec)
    (h : (l.map Prod.fst).Nodup) :
    ((storeSpec l tag v).map Prod.fst).Nodup := by
  rw [keys_storeSpec]
  by_cases h2 : tag ∈ l.map Prod.fst
  · simpa [h2] using h
  · simp only [h2, if_false]
    refine List.Nodup.append h (List.nodup_singleton tag) ?_
    intro a ha hb
    rw [List.mem_singleton] at hb
    exact h2 (hb ▸ ha)

theorem count_keys_storeSpec (l : Registry) (tag : String) (v : pluginSpec)
    (h : (l.map Prod.fst).Nodup) :
    ((storeSpec l tag v).map Prod.fst).count tag = 1 := by
  rw [keys_storeSpec]
  by_cases h2 : tag ∈ l.map Prod.fst
  · simp only [h2, if_true]
    exact List.count_eq_one_of_mem h h2
  · simp only [h2, if_false, List.count_append]
    rw [List.count_eq_zero.mpr h2]
    simp

theorem length_storeSpec (l : Registry) (tag : String) (v : pluginSpec) :
    (storeSpec l tag v).length =
      if tag ∈ l.map Prod.fst then l.length else l.length + 1 := by
  have h : ((storeSpec l tag v).map Prod.fst).length =
      (if tag ∈ l.map Prod.fst then l.map Prod.fst
       else l.map Prod.fst ++ [tag]).length := by
    rw [keys_storeSpec]
  by_cases h2 : tag ∈ l.map Prod.fst <;> simp [h2] at h <;> simpa [h2] using h

theorem lookupSpec_perm (k : String) : ∀ {s1 s2 : Registry}, s1.Perm s2 →
    (s1.map Prod.fst).Nodup → lookupSpec s1 k = lookupSpec s2 k := by
  intro s1 s2 hp
  induction hp with
  | nil => intro _; rfl
  | cons x p ih =>
      intro hnd
      obtain ⟨k1, v1⟩ := x
      by_cases h : k1 = k <;> simp [lookupSpec, h]
      exact ih (by simpa using (List.Nodup.of_cons (by simpa using hnd)))
  | swap x y l =>
      intro hnd
      obtain ⟨k1, v1⟩ := x
      obtain ⟨k2, v2⟩ := y
      have hne : k2 ≠ k1 := by
        simp only [List.map_cons, List.nodup_cons, List.mem_cons] at hnd
        exact fun h => hnd.1 (Or.inl h)
      by_cases h1 : k1 = k <;> by_cases h2 : k2 = k <;>
        simp [lookupSpec, h1, h2]
      exact absurd (h2.trans h1.symm) hne
  | trans p1 p2 ih1 ih2 =>
      intro hnd
      exact (ih1 hnd).trans (ih2 (((p1.map Prod.fst).nodup_iff).mp hnd))

theorem pluginNames_perm (s1 s2 : Registry) (hp : s1.Perm s2) :
    pluginNames s1 = pluginNames s2 := by
  haveI : IsAntisymm String (· ≤ ·) := ⟨fun _ _ h1 h2 => le_antisymm h1 h2⟩
  exact List.eq_of_perm_of_sorted
    (((List.perm_insertionSort _ _).trans (hp.map Prod.fst)).trans
      (List.perm_insertionSort _ _).symm)
    (List.sorted_insertionSort _ _) (List.sorted_insertionSort _ _)

theorem sectionsFor_congr
    (mc : String → PluginConfigConstructor → Option String)
    (s1 s2 : Registry) (hl : ∀ k, lookupSpec s1 k = lookupSpec s2 k)
    (total : Nat) :
    ∀ (i : Nat) (names : List String),
      sectionsFor mc s1 total i names = sectionsFor mc s2 total i names := by
  intro i names
  induction names generalizing i with
  | nil => rfl
  | cons n rest ih => simp [sectionsFor, sectionFor, getSpec, hl n, ih]

/-! ## Claim theorems — Part A (the plugin registry) -/

/-- C5: for every type tag and every pair of successive registrations
under that tag, `RegisterPlugin` never fails (it is total by construction)
and the registry afterwards holds exactly one entry for the tag, whose
constructor and config factory are those passed to the second call (the
constructor as its `fromSimpleConstructor` wrapper), with last write
winning per tag. -/
theorem registerPlugin_last_write_wins (specs : Registry) (tag : String)
    (f1 f2 : Option PluginConfigConstructor) (c1 c2 : PluginConstructor)
    (hnd : (specs.map Prod.fst).Nodup) :
    (((RegisterPlugin tag f2 c2 (RegisterPlugin tag f1 c1 specs)).map
        Prod.fst).count tag = 1) ∧
    lookupSpec (RegisterPlugin tag f2 c2 (RegisterPlugin tag f1 c1 specs))
        tag =
      some { getSpec specs tag with
             constructor := some (.fromSimple c2)
             confConstructor := f2 } := by
  have h1 : ((RegisterPlugin tag f1 c1 specs).map Prod.fst).Nodup := by
    simpa [RegisterPlugin] using keys_storeSpec_nodup specs tag _ hnd
  constructor
  · simpa [RegisterPlugin] using
      count_keys_storeSpec (RegisterPlugin tag f1 c1 specs) tag _ h1
  · simp [RegisterPlugin, getSpec, lookupSpec_store_self]

/-- C5 witness: a double registration under tag `"t"` on the empty
registry. -/
theorem registerPlugin_last_write_wins_witness :
    (((RegisterPlugin "t" (some 3) 4 (RegisterPlugin "t" (some 1) 2 [])).map
        Prod.fst).count "t" = 1) ∧
    lookupSpec (RegisterPlugin "t" (some 3) 4
        (RegisterPlugin "t" (some 1) 2 [])) "t" =
      some { getSpec [] "t" with
             constructor := some (.fromSimple 4)
             confConstructor := some 3 } :=
  registerPlugin_last_write_wins [] "t" (some 1) (some 3) 2 4 (by simp)

/-- C6: `GetDeprecatedPlugin` returns a constructor together with `true`
exactly when an entry exists under the tag, returns `(nil, false)`
otherwise, and has no other failure mode (it is total by construction). -/
theorem getDeprecatedPlugin_lookup (specs : Registry) (name : String) :
    ((GetDeprecatedPlugin specs name).2 = true ↔
      (lookupSpec specs name).isSome = true) ∧
    (∀ spec, lookupSpec specs name = some spec →
      GetDeprecatedPlugin specs name = (spec.constructor, true)) ∧
    (lookupSpec specs name = none →
      GetDeprecatedPlugin specs name = (none, false)) := by
  unfold GetDeprecatedPlugin
  cases h : lookupSpec specs name <;> simp [h]

/-- C6 witness: a one-entry registry hit and an empty-registry miss. -/
theorem getDeprecatedPlugin_lookup_witness :
    GetDeprecatedPlugin [("a", pluginSpecZero)] "a" = (none, true) ∧
    GetDeprecatedPlugin [] "b" = (none, false) :=
  ⟨by
    have h := (getDeprecatedPlugin_lookup [("a", pluginSpecZero)] "a").2.1
      pluginSpecZero (by simp [lookupSpec])
    simpa [pluginSpecZero] using h,
   (getDeprecatedPlugin_lookup [] "b").2.2 rfl⟩

/-- C8: `RegisterPlugin` changes only the constructor and config-factory
fields of the tag's entry, leaving description and sanitiser unchanged;
symmetrically `DocumentPlugin` changes only description and sanitiser,
leaving constructor and config factory unchanged; and neither touches any
other tag's entry. -/
theorem registerPlugin_documentPlugin_frame (specs : Registry)
    (tag other d : String) (s : Option PluginConfigSanitiser)
    (f : Option PluginConfigConstructor) (c : PluginConstructor) :
    ((getSpec (RegisterPlugin tag f c specs) tag).description =
      (getSpec specs tag).description) ∧
    ((getSpec (RegisterPlugin tag f c specs) tag).confSanitiser =
      (getSpec specs tag).confSanitiser) ∧
    ((getSpec (DocumentPlugin tag d s specs) tag).constructor =
      (getSpec specs tag).constructor) ∧
    ((getSpec (DocumentPlugin tag d s specs) tag).confConstructor =
      (getSpec specs tag).confConstructor) ∧
    (other ≠ tag →
      lookupSpec (RegisterPlugin tag f c specs) other =
        lookupSpec specs other ∧
      lookupSpec (DocumentPlugin tag d s specs) other =
        lookupSpec specs other) := by
  refine ⟨?_, ?_, ?_, ?_, fun hne => ⟨?_, ?_⟩⟩
  · simp [RegisterPlugin, getSpec, lookupSpec_store_self]
  · simp [RegisterPlugin, getSpec, lookupSpec_store_self]
  · simp [DocumentPlugin, getSpec, lookupSpec_store_self]
  · simp [DocumentPlugin, getSpec, lookupSpec_store_self]
  · exact lookupSpec_store_other specs tag other _ hne
  · exact lookupSpec_store_other specs tag other _ hne

/-- C8 witness: both operations on a concrete one-entry registry at tag
`"t"` with an unrelated tag `"u"`. -/
theorem registerPlugin_documentPlugin_frame_witness :
    (getSpec (RegisterPlugin "t" (some 7) 8 exReg) "t").description =
      (getSpec exReg "t").description ∧
    (getSpec (DocumentPlugin "t" "d2" (some 9) exReg) "t").constructor =
      (getSpec exReg "t").constructor ∧
    lookupSpec (RegisterPlugin "t" (some 7) 8 exReg) "u" =
      lookupSpec exReg "u" := by
  have h := registerPlugin_documentPlugin_frame exReg "t" "u" "d2"
    (some 9) (some 7) 8
  exact ⟨h.1, h.2.2.1, (h.2.2.2.2 (by decide)).1⟩

/-- C9: `DocumentPlugin` on a never-registered tag creates a registry
entry for it, with nil constructor and nil config factory: `PluginCount`
afterwards counts it and `GetDeprecatedPlugin` finds it, returning `true`
together with the entry's nil constructor. -/
theorem documentPlugin_creates_entry (specs : Registry) (tag d : String)
    (s : Option PluginConfigSanitiser) (h : lookupSpec specs tag = none) :
    PluginCount (DocumentPlugin tag d s specs) = PluginCount specs + 1 ∧
    GetDeprecatedPlugin (DocumentPlugin tag d s specs) tag = (none, true) ∧
    lookupSpec (DocumentPlugin tag d s specs) tag =
      some { constructor := none, confConstructor := none
             confSanitiser := s, description := d } := by
  have hmem : tag ∉ specs.map Prod.fst := (lookupSpec_eq_none_iff specs tag).mp h
  refine ⟨?_, ?_, ?_⟩
  · simp [PluginCount, DocumentPlugin, length_storeSpec, hmem]
  · simp [GetDeprecatedPlugin, DocumentPlugin, lookupSpec_store_self,
      getSpec, h, pluginSpecZero]
  · simp [DocumentPlugin, lookupSpec_store_self, getSpec, h, pluginSpecZero]

/-- C9 witness: documenting the unregistered tag `"t"` on the empty
registry. -/
theorem documentPlugin_creates_entry_witness :
    PluginCount (DocumentPlugin "t" "d" (some 5) []) = PluginCount [] + 1 ∧
    GetDeprecatedPlugin (DocumentPlugin "t" "d" (some 5) []) "t" =
      (none, true) ∧
    lookupSpec (DocumentPlugin "t" "d" (some 5) []) "t" =
      some { constructor := none, confConstructor := none
             confSanitiser := some 5, description := "d" } :=
  documentPlugin_creates_entry [] "t" "d" (some 5) rfl

/-- C10: `PluginDescriptions` lists the registered plugin names in
strictly ascending lexicographic order (the same sorted list drives both
the contents index and the per-plugin sections), and its output is a
deterministic function of the registry contents: any reordering of the
registry's entries (Go map iteration order) yields the same string. -/
theorem pluginDescriptions_sorted_deterministic
    (mc : String → PluginConfigConstructor → Option String)
    (s1 s2 : Registry) (hnd : (s1.map Prod.fst).Nodup) (hp : s1.Perm s2) :
    List.Sorted (· < ·) (pluginNames s1) ∧
    PluginDescriptions mc s1 = PluginDescriptions mc s2 := by
  constructor
  · have hs := List.sorted_insertionSort (· ≤ ·) (s1.map Prod.fst)
    have hn : (pluginNames s1).Nodup :=
      ((List.perm_insertionSort (· ≤ ·) (s1.map Prod.fst)).nodup_iff).mpr hnd
    have hps : List.Pairwise (fun a b => a ≤ b ∧ a ≠ b) (pluginNames s1) :=
      hs.and hn
    exact hps.imp (fun h => lt_iff_le_and_ne.mpr h)
  · have hnames := pluginNames_perm s1 s2 hp
    have hlk : ∀ k, lookupSpec s1 k = lookupSpec s2 k :=
      fun k => lookupSpec_perm k hp hnd
    have hsec := sectionsFor_congr mc s1 s2 hlk (pluginNames s2).length 0
      (pluginNames s2)
    simp only [PluginDescriptions, hnames, hsec]

/-- C10 witness: a two-entry registry and its transposition. -/
theorem pluginDescriptions_sorted_deterministic_witness :
    List.Sorted (· < ·)
      (pluginNames [("b", pluginSpecZero), ("a", pluginSpecZero)]) ∧
    PluginDescriptions (fun _ _ => none)
        [("b", pluginSpecZero), ("a", pluginSpecZero)] =
      PluginDescriptions (fun _ _ => none)
        [("a", pluginSpecZero), ("b", pluginSpecZero)] :=
  pluginDescriptions_sorted_deterministic (fun _ _ => none)
    [("b", pluginSpecZero), ("a", pluginSpecZero)]
    [("a", pluginSpecZero), ("b", pluginSpecZero)]
    (by simp) (List.Perm.swap ("a", pluginSpecZero) ("b", pluginSpecZero) [])

/-! ### Interpolation lemmas -/

theorem takeWhile_append_stop (stop : Char) (body rest : List Char)
    (hb : stop ∉ body) :
    (body ++ stop :: rest).takeWhile (fun d => d ≠ stop) = body := by
  induction body with
  | nil => simp [List.takeWhile]
  | cons c cs ih =>
    have hc : c ≠ stop := fun h => hb (h ▸ List.mem_cons_self c cs)
    have ih2 := ih (fun h2 => hb (List.mem_cons_of_mem c h2))
    rw [List.cons_append, List.takeWhile_cons, if_pos (by simpa using hc), ih2]

theorem dropWhile_append_stop (stop : Char) (body rest : List Char)
    (hb : stop ∉ body) :
    (body ++ stop :: rest).dropWhile (fun d => d ≠ stop) = stop :: rest := by
  induction body with
  | nil => simp [List.dropWhile]
  | cons c cs ih =>
    have hc : c ≠ stop := fun h => hb (h ▸ List.mem_cons_self c cs)
    have ih2 := ih (fun h2 => hb (List.mem_cons_of_mem c h2))
    rw [List.cons_append, List.dropWhile_cons, if_pos (by simpa using hc), ih2]

theorem splitBody_no_colon (name : List Char) (h : (':' : Char) ∉ name) :
    splitBody name = (String.mk name, none) := by
  unfold splitBody
  have h1 : name.takeWhile (fun c => c ≠ ':') = name :=
    List.takeWhile_eq_self_iff.mpr (by
      intro c hc
      simp only [ne_eq, decide_eq_true_eq]
      exact fun he => h (he ▸ hc))
  have h2 : name.dropWhile (fun c => c ≠ ':') = [] :=
    List.dropWhile_eq_nil_iff.mpr (by
      intro c hc
      simp only [ne_eq, decide_eq_true_eq]
      exact fun he => h (he ▸ hc))
  rw [h2, h1]

theorem splitBody_colon (name dflt : List Char) (h : (':' : Char) ∉ name) :
    splitBody (name ++ ':' :: dflt) =
      (String.mk name, some (String.mk dflt)) := by
  unfold splitBody
  rw [takeWhile_append_stop (':' : Char) name dflt h,
    dropWhile_append_stop (':' : Char) name dflt h]

theorem interpChars_placeholder (ov : List (String × String))
    (body rest : List Char) (hb : rbrace ∉ body) :
    interpChars ov ('$' :: lbrace :: (body ++ rbrace :: rest)) =
      (resolvePlaceholder ov body).data ++ interpChars ov rest := by
  rw [interpChars, if_pos rfl, if_pos rfl]
  simp only [dropWhile_append_stop rbrace body rest hb,
    takeWhile_append_stop rbrace body rest hb]
  simp

theorem interpChars_nil (ov : List (String × String)) :
    interpChars ov [] = [] := by
  rw [interpChars]

theorem data_wrap (name rest : String) :
    ("$\x7b" ++ name ++ "\x7d" ++ rest).data =
      '$' :: lbrace :: (name.data ++ rbrace :: rest.data) := by
  have h1 : ("$\x7b").data = ['$', lbrace] := by decide
  have h2 : ("\x7d").data = [rbrace] := by decide
  simp [String.data_append, h1, h2]
  decide

theorem data_wrap_colon (name dflt rest : String) :
    ("$\x7b" ++ name ++ ":" ++ dflt ++ "\x7d" ++ rest).data =
      '$' :: lbrace ::
        ((name.data ++ ':' :: dflt.data) ++ rbrace :: rest.data) := by
  have h1 : ("$\x7b").data = ['$', lbrace] := by decide
  have h2 : ("\x7d").data = [rbrace] := by decide
  have h3 : (":").data = [':'] := by decide
  simp [String.data_append, h1, h2, h3]
  decide

theorem interpString_empty (ov : List (String × String)) :
    interpString ov "" = "" := by
  unfold interpString
  rw [show ("" : String).data = [] from rfl, interpChars_nil]

theorem interpString_placeholder_nodefault (ov : List (String × String))
    (name rest : String) (hn1 : (':' : Char) ∉ name.data)
    (hn2 : rbrace ∉ name.data) :
    interpString ov ("$\x7b" ++ name ++ "\x7d" ++ rest) =
      ((alookup ov name).getD "") ++ interpString ov rest := by
  unfold interpString
  rw [data_wrap name rest, interpChars_placeholder ov name.data rest.data hn2]
  unfold resolvePlaceholder
  rw [splitBody_no_colon name.data hn1]
  cases h : alookup ov name <;> (simp [h, Option.getD]; try rfl)

theorem interpString_placeholder_default (ov : List (String × String))
    (name dflt rest : String) (hn1 : (':' : Char) ∉ name.data)
    (hn2 : rbrace ∉ name.data) (hd : rbrace ∉ dflt.data) :
    interpString ov ("$\x7b" ++ name ++ ":" ++ dflt ++ "\x7d" ++ rest) =
      ((alookup ov name).getD dflt) ++ interpString ov rest := by
  have hb : rbrace ∉ name.data ++ ':' :: dflt.data := by
    intro hmem
    rcases List.mem_append.mp hmem with h | h
    · exact hn2 h
    · rcases List.mem_cons.mp h with h | h
      · exact absurd h (by decide)
      · exact hd h
  unfold interpString
  rw [data_wrap_colon name dflt rest,
    interpChars_placeholder ov (name.data ++ ':' :: dflt.data) rest.data hb]
  unfold resolvePlaceholder
  rw [splitBody_colon name.data dflt.data hn1]
  cases h : alookup ov name <;> (simp [h, Option.getD]; try rfl)

/-- C1: interpolation resolves each `$\x7bNAME\x7d` /
`$\x7bNAME:default\x7d` placeholder independently, left to right, by the
override value for NAME if present (substituted verbatim), else the
literal default text if a `:default` clause is present, else the empty
string — stated as the general scan step for both placeholder forms over
an arbitrary remaining suffix, together with the spec's three concrete
examples. -/
theorem interpolate_resolution (ov : List (String × String))
    (name dflt rest : String) (hn1 : (':' : Char) ∉ name.data)
    (hn2 : rbrace ∉ name.data) (hd : rbrace ∉ dflt.data) :
    (interpString ov ("$\x7b" ++ name ++ "\x7d" ++ rest) =
      ((alookup ov name).getD "") ++ interpString ov rest) ∧
    (interpString ov ("$\x7b" ++ name ++ ":" ++ dflt ++ "\x7d" ++ rest) =
      ((alookup ov name).getD dflt) ++ interpString ov rest) ∧
    interpString [] "$\x7bFOO:bar\x7d" = "bar" ∧
    interpString [("FOO", "baz")] "$\x7bFOO:bar\x7d" = "baz" ∧
    interpString [] "$\x7bFOO\x7d" = "" := by
  refine ⟨interpString_placeholder_nodefault ov name rest hn1 hn2,
    interpString_placeholder_default ov name dflt rest hn1 hn2 hd, ?_, ?_, ?_⟩
  · have h := interpString_placeholder_default [] "FOO" "bar" ""
      (by decide) (by decide) (by decide)
    rw [interpString_empty] at h
    simpa [alookup] using h
  · have h := interpString_placeholder_default [("FOO", "baz")] "FOO" "bar" ""
      (by decide) (by decide) (by decide)
    rw [interpString_empty] at h
    simpa [alookup] using h
  · have h := interpString_placeholder_nodefault [] "FOO" ""
      (by decide) (by decide)
    rw [interpString_empty] at h
    simpa [alookup] using h

/-- C1 witness: the scan step at a concrete override mapping, name,
default and suffix. -/
theorem interpolate_resolution_witness :
    (interpString [("FOO", "baz")] ("$\x7b" ++ "FOO" ++ "\x7d" ++ "x") =
      ((alookup [("FOO", "baz")] "FOO").getD "") ++
        interpString [("FOO", "baz")] "x") ∧
    (interpString [("FOO", "baz")]
        ("$\x7b" ++ "FOO" ++ ":" ++ "bar" ++ "\x7d" ++ "x") =
      ((alookup [("FOO", "baz")] "FOO").getD "bar") ++
        interpString [("FOO", "baz")] "x") ∧
    interpString [] "$\x7bFOO:bar\x7d" = "bar" ∧
    interpString [("FOO", "baz")] "$\x7bFOO:bar\x7d" = "baz" ∧
    interpString [] "$\x7bFOO\x7d" = "" :=
  interpolate_resolution [("FOO", "baz")] "FOO" "bar" "x"
    (by decide) (by decide) (by decide)

/-! ### Resource-merge lemmas -/

theorem rsPairs_cons (c : String) (ns : List (String × Node))
    (rest : ResourceSet) :
    rsPairs ((c, ns) :: rest) =
      ns.map (fun nv => (c, nv.1)) ++ rsPairs rest := by
  simp [rsPairs]

theorem rsSize_rsInsert (rs : ResourceSet) (cat name : String) (conf : Node) :
    rsSize (rsInsert rs cat name conf) = rsSize rs + 1 := by
  induction rs with
  | nil => simp [rsInsert, rsSize, rsPairs]
  | cons p rest ih =>
    obtain ⟨c, ns⟩ := p
    by_cases h : c = cat <;>
      simp [rsInsert, h, rsSize, rsPairs_cons] at ih ⊢ <;> omega

theorem mem_rsPairs_rsInsert (rs : ResourceSet) (cat name : String)
    (conf : Node) (p : String × String) :
    p ∈ rsPairs (rsInsert rs cat name conf) ↔
      p = (cat, name) ∨ p ∈ rsPairs rs := by
  induction rs with
  | nil => simp [rsInsert, rsPairs]
  | cons q rest ih =>
    obtain ⟨c, ns⟩ := q
    by_cases h : c = cat
    · subst h
      rw [show rsInsert ((c, ns) :: rest) c name conf =
          (c, ns ++ [(name, conf)]) :: rest by simp [rsInsert]]
      rw [rsPairs_cons, rsPairs_cons, List.map_append]
      simp only [List.map_cons, List.map_nil, List.mem_append,
        List.mem_singleton, List.mem_cons, List.not_mem_nil, or_false]
      tauto
    · rw [show rsInsert ((c, ns) :: rest) cat name conf =
          (c, ns) :: rsInsert rest cat name conf by simp [rsInsert, h]]
      rw [rsPairs_cons, rsPairs_cons]
      simp only [List.mem_append, ih]
      tauto

theorem addResource_ok (acc : ResourceSet) (file cat name : String)
    (conf : Node) (h : (cat, name) ∉ rsPairs acc) :
    addResource acc file cat name conf =
      .ok (rsInsert acc cat name conf) := by
  unfold addResource
  rw [if_neg h]

theorem addResource_collide (acc : ResourceSet) (file cat name : String)
    (conf : Node) (h : (cat, name) ∈ rsPairs acc) :
    addResource acc file cat name conf = .error ⟨file, cat, name⟩ := by
  unfold addResource
  rw [if_pos h]

theorem addResource_error (acc : ResourceSet) (file cat name : String)
    (conf : Node) (e : ResourceCollision)
    (h : addResource acc file cat name conf = .error e) :
    e = ⟨file, cat, name⟩ := by
  unfold addResource at h
  split at h
  · simpa using h.symm
  · simp at h

theorem mergeNames_error_file (file cat : String) :
    ∀ (ns : List (String × Node)) (acc : ResourceSet)
      (e : ResourceCollision),
    mergeNames acc file cat ns = .error e →
    e.file = file ∧ e.category = cat := by
  intro ns
  induction ns with
  | nil => intro acc e h; simp [mergeNames] at h
  | cons nv rest ih =>
    intro acc e h
    obtain ⟨name, conf⟩ := nv
    cases haddr : addResource acc file cat name conf with
    | error e2 =>
      rw [mergeNames, haddr] at h
      have he2 := addResource_error acc file cat name conf e2 haddr
      cases h
      rw [he2]
      exact ⟨rfl, rfl⟩
    | ok accm =>
      rw [mergeNames, haddr] at h
      exact ih accm e h

theorem addResource_ok_eq (acc : ResourceSet) (file cat name : String)
    (conf : Node) (acc2 : ResourceSet)
    (h : addResource acc file cat name conf = .ok acc2) :
    acc2 = rsInsert acc cat name conf := by
  unfold addResource at h
  split at h
  · simp at h
  · simpa using h.symm

theorem mergeNames_mono (file cat : String) :
    ∀ (ns : List (String × Node)) (acc acc2 : ResourceSet),
    mergeNames acc file cat ns = .ok acc2 →
    ∀ q ∈ rsPairs acc, q ∈ rsPairs acc2 := by
  intro ns
  induction ns with
  | nil =>
    intro acc acc2 h q hq
    rw [mergeNames] at h
    cases h
    exact hq
  | cons nv rest ih =>
    intro acc acc2 h q hq
    obtain ⟨name, conf⟩ := nv
    cases haddr : addResource acc file cat name conf with
    | error e2 => rw [mergeNames, haddr] at h; cases h
    | ok accm =>
      rw [mergeNames, haddr] at h
      have hm := addResource_ok_eq acc file cat name conf accm haddr
      subst hm
      exact ih _ acc2 h q
        ((mem_rsPairs_rsInsert acc cat name conf q).mpr (Or.inr hq))

theorem mergeNames_ok (file cat : String) :
    ∀ (ns : List (String × Node)) (acc : ResourceSet),
    (∀ n ∈ ns.map Prod.fst, (cat, n) ∉ rsPairs acc) →
    (ns.map Prod.fst).Nodup →
    ∃ acc2, mergeNames acc file cat ns = .ok acc2 ∧
      rsSize acc2 = rsSize acc + ns.length ∧
      ∀ p, p ∈ rsPairs acc2 ↔
        p ∈ rsPairs acc ∨ p ∈ ns.map (fun nv => (cat, nv.1)) := by
  intro ns
  induction ns with
  | nil => intro acc _ _; exact ⟨acc, rfl, by simp, by simp⟩
  | cons nv rest ih =>
    intro acc h1 h2
    obtain ⟨name, conf⟩ := nv
    have hnotin : (cat, name) ∉ rsPairs acc := h1 name (by simp)
    have hstep := addResource_ok acc file cat name conf hnotin
    have h1' : ∀ n ∈ rest.map Prod.fst,
        (cat, n) ∉ rsPairs (rsInsert acc cat name conf) := by
      intro n hn hmem
      rcases (mem_rsPairs_rsInsert acc cat name conf (cat, n)).mp hmem with
        heq | hin
      · have hne : n = name := by
          have := congrArg Prod.snd heq
          simpa using this
        rw [List.map_cons, List.nodup_cons] at h2
        exact h2.1 (hne ▸ hn)
      · exact h1 n (by simp [hn]) hin
    have h2' : (rest.map Prod.fst).Nodup := by
      rw [List.map_cons, List.nodup_cons] at h2
      exact h2.2
    obtain ⟨acc2, hm, hs, hmem2⟩ := ih (rsInsert acc cat name conf) h1' h2'
    refine ⟨acc2, ?_, ?_, ?_⟩
    · rw [mergeNames, hstep]
      exact hm
    · rw [hs, rsSize_rsInsert]
      simp only [List.length_cons]
      omega
    · intro p
      rw [hmem2 p, mem_rsPairs_rsInsert]
      simp only [List.map_cons, List.mem_cons]
      tauto

theorem mergeNames_collides (file cat : String) :
    ∀ (ns : List (String × Node)) (acc : ResourceSet),
    (ns.map Prod.fst).Nodup →
    (∃ n ∈ ns.map Prod.fst, (cat, n) ∈ rsPairs acc) →
    ∃ n, n ∈ ns.map Prod.fst ∧ (cat, n) ∈ rsPairs acc ∧
      mergeNames acc file cat ns = .error ⟨file, cat, n⟩ := by
  intro ns
  induction ns with
  | nil =>
    intro acc _ h
    obtain ⟨n, hn, _⟩ := h
    simp at hn
  | cons nv rest ih =>
    intro acc hnd h
    obtain ⟨n, hn, hmem⟩ := h
    obtain ⟨name, conf⟩ := nv
    by_cases hc : (cat, name) ∈ rsPairs acc
    · refine ⟨name, by simp, hc, ?_⟩
      rw [mergeNames, addResource_collide acc file cat name conf hc]
    · have hstep := addResource_ok acc file cat name conf hc
      have hn2 : n ∈ rest.map Prod.fst := by
        rw [List.map_cons] at hn
        rcases List.mem_cons.mp hn with rfl | h2
        · exact absurd hmem hc
        · exact h2
      rw [List.map_cons, List.nodup_cons] at hnd
      obtain ⟨n2, hn2m, hmem2, herr⟩ := ih (rsInsert acc cat name conf)
        hnd.2 ⟨n, hn2, (mem_rsPairs_rsInsert acc cat name conf
          (cat, n)).mpr (Or.inr hmem)⟩
      have hmem2acc : (cat, n2) ∈ rsPairs acc := by
        rcases (mem_rsPairs_rsInsert acc cat name conf (cat, n2)).mp hmem2
          with heq | hin
        · have hne : n2 = name := by
            have := congrArg Prod.snd heq
            simpa using this
          exact absurd (hne ▸ hn2m) hnd.1
        · exact hin
      refine ⟨n2, ?_, hmem2acc, ?_⟩
      · rw [List.map_cons]
        exact List.mem_cons_of_mem _ hn2m
      · rw [mergeNames, hstep]
        exact herr

theorem mem_catPairs (cat n : String) (ns : List (String × Node)) :
    (cat, n) ∈ ns.map (fun nv => (cat, nv.1)) ↔ n ∈ ns.map Prod.fst := by
  constructor
  · intro h
    obtain ⟨nv, hnv, heq⟩ := List.mem_map.mp h
    have : nv.1 = n := by
      have := congrArg Prod.snd heq
      simpa using this
    exact this ▸ List.mem_map.mpr ⟨nv, hnv, rfl⟩
  · intro h
    obtain ⟨nv, hnv, heq⟩ := List.mem_map.mp h
    exact List.mem_map.mpr ⟨nv, hnv, by rw [heq]⟩

theorem mergeDoc_error_file (file : String) :
    ∀ (d : ResourceSet) (acc : ResourceSet) (e : ResourceCollision),
    mergeDoc acc file d = .error e → e.file = file := by
  intro d
  induction d with
  | nil => intro acc e h; rw [mergeDoc] at h; cases h
  | cons cns rest ih =>
    intro acc e h
    obtain ⟨cat, ns⟩ := cns
    cases hmn : mergeNames acc file cat ns with
    | error e2 =>
      rw [mergeDoc, hmn] at h
      cases h
      exact (mergeNames_error_file file cat ns acc _ hmn).1
    | ok accm =>
      rw [mergeDoc, hmn] at h
      exact ih accm e h

theorem mergeDoc_ok (file : String) :
    ∀ (d acc : ResourceSet),
    (∀ p ∈ rsPairs d, p ∉ rsPairs acc) → (rsPairs d).Nodup →
    ∃ acc2, mergeDoc acc file d = .ok acc2 ∧
      rsSize acc2 = rsSize acc + rsSize d ∧
      (∀ p, p ∈ rsPairs acc2 ↔ p ∈ rsPairs acc ∨ p ∈ rsPairs d) := by
  intro d
  induction d with
  | nil =>
    intro acc _ _
    exact ⟨acc, rfl, by simp [rsSize, rsPairs], by simp [rsPairs]⟩
  | cons cns rest ih =>
    intro acc hdisj hnd
    obtain ⟨cat, ns⟩ := cns
    rw [rsPairs_cons] at hdisj hnd
    have hn1 : ∀ n ∈ ns.map Prod.fst, (cat, n) ∉ rsPairs acc := by
      intro n hn
      exact hdisj (cat, n)
        (List.mem_append_left _ ((mem_catPairs cat n ns).mpr hn))
    have hndns : (ns.map Prod.fst).Nodup := by
      have h1 : (ns.map (fun nv => (cat, nv.1))).Nodup := hnd.of_append_left
      have h2 : ns.map (fun nv => (cat, nv.1)) =
          (ns.map Prod.fst).map (fun n => (cat, n)) := by
        rw [List.map_map]
        rfl
      rw [h2] at h1
      exact h1.of_map _
    obtain ⟨accm, hmn, hsz1, hmem1⟩ := mergeNames_ok file cat ns acc hn1 hndns
    have hdisj' : ∀ p ∈ rsPairs rest, p ∉ rsPairs accm := by
      intro p hp hmem
      rcases (hmem1 p).mp hmem with h | h
      · exact hdisj p (List.mem_append_right _ hp) h
      · exact (List.disjoint_of_nodup_append hnd) h hp
    have hnd' : (rsPairs rest).Nodup := hnd.of_append_right
    obtain ⟨acc2, hmd, hsz2, hmem2⟩ := ih accm hdisj' hnd'
    refine ⟨acc2, ?_, ?_, ?_⟩
    · rw [mergeDoc, hmn]
      exact hmd
    · rw [hsz2, hsz1]
      simp only [rsSize, rsPairs_cons, List.length_append, List.length_map]
      omega
    · intro p
      rw [hmem2 p, hmem1 p, rsPairs_cons]
      simp only [List.mem_append]
      tauto

theorem mergeDoc_collides (file : String) :
    ∀ (d acc : ResourceSet),
    (rsPairs d).Nodup →
    (∃ p ∈ rsPairs d, p ∈ rsPairs acc) →
    ∃ p, p ∈ rsPairs d ∧ p ∈ rsPairs acc ∧
      mergeDoc acc file d = .error ⟨file, p.1, p.2⟩ := by
  intro d
  induction d with
  | nil =>
    intro acc _ h
    obtain ⟨p, hp, _⟩ := h
    simp [rsPairs] at hp
  | cons cns rest ih =>
    intro acc hnd h
    obtain ⟨p, hp, hmem⟩ := h
    obtain ⟨cat, ns⟩ := cns
    rw [rsPairs_cons] at hp hnd
    have hnames : (ns.map Prod.fst).Nodup := by
      have h1 : (ns.map (fun nv => (cat, nv.1))).Nodup := hnd.of_append_left
      have h2 : ns.map (fun nv => (cat, nv.1)) =
          (ns.map Prod.fst).map (fun n => (cat, n)) := by
        rw [List.map_map]
        rfl
      rw [h2] at h1
      exact h1.of_map _
    by_cases hhead : ∃ n ∈ ns.map Prod.fst, (cat, n) ∈ rsPairs acc
    · obtain ⟨n0, hn0, hmem0, herr⟩ :=
        mergeNames_collides file cat ns acc hnames hhead
      refine ⟨(cat, n0), ?_, hmem0, ?_⟩
      · rw [rsPairs_cons]
        exact List.mem_append_left _ ((mem_catPairs cat n0 ns).mpr hn0)
      · rw [mergeDoc, herr]
    · obtain ⟨accm, hmn, _, hmem1⟩ := mergeNames_ok file cat ns acc
        (fun n hn hmem2 => hhead ⟨n, hn, hmem2⟩) hnames
      have hprest : p ∈ rsPairs rest := by
        rcases List.mem_append.mp hp with hh | hr
        · obtain ⟨nv, hnv, heq⟩ := List.mem_map.mp hh
          exact absurd ⟨nv.1, List.mem_map.mpr ⟨nv, hnv, rfl⟩,
            by rw [heq]; exact hmem⟩ hhead
        · exact hr
      obtain ⟨p2, hp2, hmem2, herr⟩ := ih accm hnd.of_append_right
        ⟨p, hprest, mergeNames_mono file cat ns acc accm hmn p hmem⟩
      have hmem2acc : p2 ∈ rsPairs acc := by
        rcases (hmem1 p2).mp hmem2 with ha | hb
        · exact ha
        · exact absurd hp2 ((List.disjoint_of_nodup_append hnd) hb)
      refine ⟨p2, ?_, hmem2acc, ?_⟩
      · rw [rsPairs_cons]
        exact List.mem_append_right _ hp2
      · rw [mergeDoc, hmn]
        exact herr

theorem merge_ok_all :
    ∀ (extras : List (String × ResourceSet)) (primary : ResourceSet),
    (∀ d ∈ extras, (rsPairs d.2).Nodup) →
    (∀ d ∈ extras, ∀ p ∈ rsPairs d.2, p ∉ rsPairs primary) →
    List.Pairwise (fun d1 d2 => ∀ p ∈ rsPairs d2.2, p ∉ rsPairs d1.2) extras →
    ∃ m, merge primary extras = .ok m ∧
      rsSize m = rsSize primary + (extras.map (fun d => rsSize d.2)).sum ∧
      (∀ p, p ∈ rsPairs m ↔
        p ∈ rsPairs primary ∨ ∃ d ∈ extras, p ∈ rsPairs d.2) := by
  intro extras
  induction extras with
  | nil => intro primary _ _ _; exact ⟨primary, rfl, by simp, by simp⟩
  | cons d rest ih =>
    intro primary hnd hdisj hpw
    obtain ⟨file, drs⟩ := d
    obtain ⟨acc1, hmd, hsz1, hmem1⟩ := mergeDoc_ok file drs primary
      (hdisj (file, drs) (by simp)) (hnd (file, drs) (by simp))
    obtain ⟨m, hm, hsz2, hmem2⟩ := ih acc1
      (fun e he => hnd e (by simp [he]))
      (fun e he p hp hmem => by
        rcases (hmem1 p).mp hmem with h | h
        · exact hdisj e (by simp [he]) p hp h
        · exact (List.pairwise_cons.mp hpw).1 e he p hp h)
      (List.pairwise_cons.mp hpw).2
    refine ⟨m, ?_, ?_, ?_⟩
    · rw [merge, hmd]
      exact hm
    · rw [hsz2, hsz1]
      simp only [List.map_cons, List.sum_cons]
      omega
    · intro p
      rw [hmem2 p, hmem1 p]
      simp only [List.mem_cons]
      constructor
      · rintro ((h | h) | ⟨e, he, hin⟩)
        · exact Or.inl h
        · exact Or.inr ⟨(file, drs), Or.inl rfl, h⟩
        · exact Or.inr ⟨e, Or.inr he, hin⟩
      · rintro (h | ⟨e, he | he, hin⟩)
        · exact Or.inl (Or.inl h)
        · cases he
          exact Or.inl (Or.inr hin)
        · exact Or.inr ⟨e, he, hin⟩

theorem merge_collides :
    ∀ (pre : List (String × ResourceSet)) (primary : ResourceSet)
      (d : String × ResourceSet) (post : List (String × ResourceSet)),
    (∀ e ∈ pre, (rsPairs e.2).Nodup) →
    (∀ e ∈ pre, ∀ p ∈ rsPairs e.2, p ∉ rsPairs primary) →
    List.Pairwise (fun d1 d2 => ∀ p ∈ rsPairs d2.2, p ∉ rsPairs d1.2) pre →
    (rsPairs d.2).Nodup →
    (∃ p ∈ rsPairs d.2, p ∈ rsPairs primary ∨ ∃ e ∈ pre, p ∈ rsPairs e.2) →
    ∃ p, p ∈ rsPairs d.2 ∧
      (p ∈ rsPairs primary ∨ ∃ e ∈ pre, p ∈ rsPairs e.2) ∧
      merge primary (pre ++ d :: post) = .error ⟨d.1, p.1, p.2⟩ := by
  intro pre
  induction pre with
  | nil =>
    intro primary d post _ _ _ hndd hcol
    obtain ⟨p, hp, hmem⟩ := hcol
    obtain ⟨f, rs⟩ := d
    simp only [List.mem_nil_iff, false_and, exists_false, or_false] at hmem
    obtain ⟨p2, hp2, hmem2, herr⟩ :=
      mergeDoc_collides f rs primary hndd ⟨p, hp, hmem⟩
    refine ⟨p2, hp2, Or.inl hmem2, ?_⟩
    rw [List.nil_append, merge, herr]
  | cons e0 rest ih =>
    intro primary d post hnd hdisj hpw hndd hcol
    obtain ⟨p, hp, hmem⟩ := hcol
    obtain ⟨f0, rs0⟩ := e0
    obtain ⟨acc1, hmd, _, hmem1⟩ := mergeDoc_ok f0 rs0 primary
      (hdisj (f0, rs0) (by simp)) (hnd (f0, rs0) (by simp))
    have hex : ∃ q ∈ rsPairs d.2,
        q ∈ rsPairs acc1 ∨ ∃ e ∈ rest, q ∈ rsPairs e.2 := by
      refine ⟨p, hp, ?_⟩
      rcases hmem with h | ⟨e, he, hin⟩
      · exact Or.inl ((hmem1 p).mpr (Or.inl h))
      · rcases List.mem_cons.mp he with heq | he2
        · subst heq
          exact Or.inl ((hmem1 p).mpr (Or.inr hin))
        · exact Or.inr ⟨e, he2, hin⟩
    obtain ⟨p2, hp2, hmem2, herr⟩ := ih acc1 d post
      (fun e he => hnd e (by simp [he]))
      (fun e he q hq hqm => by
        rcases (hmem1 q).mp hqm with h | h
        · exact hdisj e (by simp [he]) q hq h
        · exact (List.pairwise_cons.mp hpw).1 e he q hq h)
      (List.pairwise_cons.mp hpw).2 hndd hex
    refine ⟨p2, hp2, ?_, ?_⟩
    · rcases hmem2 with ha | ⟨e, he, hin⟩
      · rcases (hmem1 p2).mp ha with h | h
        · exact Or.inl h
        · exact Or.inr ⟨(f0, rs0), by simp, h⟩
      · exact Or.inr ⟨e, List.mem_cons_of_mem _ he, hin⟩
    · rw [List.cons_append, merge, hmd]
      exact herr

/-- C2: merging a primary resource set with an ordered list of extra
resource documents whose (category, name) pairs are pairwise disjoint
succeeds with combined size equal to the sum of the inputs' sizes; and
whenever an extra document contributes a pair already present in the
accumulated set (from the primary or any earlier extra), merging fails
with a `ResourceCollision` naming that later-processed extra file — never
the first-seen contributor — together with the colliding category and
name (a pair of the offending document that is already in the accumulated
set), with no partial merge committed (an `error` result carries no
merged set, by construction of `merge`). -/
theorem merge_disjoint_size_and_collision :
    (∀ (primary : ResourceSet) (extras : List (String × ResourceSet)),
      (∀ d ∈ extras, (rsPairs d.2).Nodup) →
      (∀ d ∈ extras, ∀ p ∈ rsPairs d.2, p ∉ rsPairs primary) →
      List.Pairwise
        (fun d1 d2 => ∀ p ∈ rsPairs d2.2, p ∉ rsPairs d1.2) extras →
      ∃ m, merge primary extras = .ok m ∧
        rsSize m = rsSize primary +
          (extras.map (fun d => rsSize d.2)).sum) ∧
    (∀ (primary : ResourceSet) (pre : List (String × ResourceSet))
       (d : String × ResourceSet) (post : List (String × ResourceSet)),
      (∀ e ∈ pre, (rsPairs e.2).Nodup) →
      (∀ e ∈ pre, ∀ p ∈ rsPairs e.2, p ∉ rsPairs primary) →
      List.Pairwise (fun d1 d2 => ∀ p ∈ rsPairs d2.2, p ∉ rsPairs d1.2) pre →
      (rsPairs d.2).Nodup →
      (∃ p ∈ rsPairs d.2,
        p ∈ rsPairs primary ∨ ∃ e ∈ pre, p ∈ rsPairs e.2) →
      ∃ p, p ∈ rsPairs d.2 ∧
        (p ∈ rsPairs primary ∨ ∃ e ∈ pre, p ∈ rsPairs e.2) ∧
        merge primary (pre ++ d :: post) = .error ⟨d.1, p.1, p.2⟩) := by
  constructor
  · intro primary extras h1 h2 h3
    obtain ⟨m, hm, hs, _⟩ := merge_ok_all extras primary h1 h2 h3
    exact ⟨m, hm, hs⟩
  · intro primary pre d post h1 h2 h3 h4 h5
    exact merge_collides pre primary d post h1 h2 h3 h4 h5

/-- C2 witness: the test fixture shapes — a primary with `foocache`,
disjoint extras `barcache`/`bazcache` merging to size 3, and colliding
extras both declaring `caches.barcache`, blamed on the second file with
the colliding category `caches` and name `barcache`. -/
theorem merge_disjoint_size_and_collision_witness :
    (∃ m, merge [("caches", [("foocache", Node.map [])])]
        [("r1", [("caches", [("barcache", Node.map [])])]),
         ("r2", [("caches", [("bazcache", Node.map [])])])] = .ok m ∧
      rsSize m = rsSize [("caches", [("foocache", Node.map [])])] +
        (([("r1", [("caches", [("barcache", Node.map [])])]),
           ("r2", [("caches", [("bazcache", Node.map [])])])].map
            (fun d => rsSize d.2)).sum)) ∧
    merge [("caches", [("foocache", Node.map [])])]
        ([("r1", [("caches", [("barcache", Node.map [])])])] ++
          ("r2", [("caches", [("barcache", Node.map [])])]) :: []) =
      .error ⟨"r2", "caches", "barcache"⟩ := by
  constructor
  · refine merge_disjoint_size_and_collision.1
      [("caches", [("foocache", Node.map [])])]
      [("r1", [("caches", [("barcache", Node.map [])])]),
       ("r2", [("caches", [("bazcache", Node.map [])])])]
      ?_ ?_ ?_
    · intro d hd
      rcases List.mem_cons.mp hd with rfl | hd2
      · simp [rsPairs]
      · rcases List.mem_cons.mp hd2 with rfl | hd3
        · simp [rsPairs]
        · simp at hd3
    · intro d hd p hp
      rcases List.mem_cons.mp hd with rfl | hd2
      · simp [rsPairs] at hp ⊢
        simp [hp]
      · rcases List.mem_cons.mp hd2 with rfl | hd3
        · simp [rsPairs] at hp ⊢
          simp [hp]
        · simp at hd3
    · refine List.Pairwise.cons ?_ (List.pairwise_singleton _ _)
      intro e he p hp
      rcases List.mem_singleton.mp he with rfl
      simp [rsPairs] at hp ⊢
      simp [hp]
  · have happ := merge_disjoint_size_and_collision.2
      [("caches", [("foocache", Node.map [])])]
      [("r1", [("caches", [("barcache", Node.map [])])])]
      ("r2", [("caches", [("barcache", Node.map [])])]) []
      (by
        intro e he
        rcases List.mem_singleton.mp he with rfl
        simp [rsPairs])
      (by
        intro e he p hp
        rcases List.mem_singleton.mp he with rfl
        simp [rsPairs] at hp ⊢
        simp [hp])
      (List.pairwise_singleton _ _)
      (by simp [rsPairs])
      (by
        refine ⟨("caches", "barcache"), ?_, Or.inr
          ⟨("r1", [("caches", [("barcache", Node.map [])])]), by simp, ?_⟩⟩
        · simp [rsPairs]
        · simp [rsPairs])
    obtain ⟨p, hp, _, herr⟩ := happ
    have hpeq : p = ("caches", "barcache") := by
      simpa [rsPairs] using hp
    rw [hpeq] at herr
    exact herr

/-! ### Assembler lemmas -/

theorem buildStages_unknown (reg : Registries) :
    ∀ (pre : List Node) (tag : String) (conf : Node) (post : List Node),
    (∀ e ∈ pre, ∃ t c, e = Node.map [(t, c)] ∧
      (t ∈ reg.primary ∨ t ∈ reg.deprecated)) →
    tag ∉ reg.primary → tag ∉ reg.deprecated →
    buildStages reg (pre ++ Node.map [(tag, conf)] :: post) =
      .error (.unknownType tag) := by
  intro pre
  induction pre with
  | nil =>
    intro tag conf post _ h1 h2
    rw [List.nil_append, buildStages, if_neg (by tauto)]
  | cons e rest ih =>
    intro tag conf post hpre h1 h2
    obtain ⟨t, c, rfl, hreg⟩ := hpre e (by simp)
    have hih := ih tag conf post
      (fun e2 he2 => hpre e2 (by simp [he2])) h1 h2
    rw [List.cons_append, buildStages, if_pos hreg, hih]

/-- C3: `Provide` fails with `FileNotFound` when the primary path does not
exist in the store, with `ParseError` when the primary file's content is
syntactically invalid, with `PathNotFound` when the sub-path does not
resolve in the fully resolved tree, and with `UnknownType` when a stage
entry names a type tag registered in neither the primary nor the
deprecated registry; each conclusion is an immediate `error` result, which
by construction of `provide` carries no stage list. -/
theorem provide_error_taxonomy (store : Store) (reg : Registries)
    (primaryPath subPath : String) (ov : List (String × String))
    (extraPaths : List String) :
    (alookup store primaryPath = none →
      provide store reg primaryPath subPath ov extraPaths =
        .error (.fileNotFound primaryPath)) ∧
    (alookup store primaryPath = some .invalid →
      provide store reg primaryPath subPath ov extraPaths =
        .error (.parseError primaryPath)) ∧
    (∀ doc0 doc1 res pe,
      alookup store primaryPath = some (.valid doc0) →
      expandNode store (storeFuel store) [] primaryPath doc0 = .ok doc1 →
      provideExtras store ov (resourcesOf (interpNode ov doc1))
        extraPaths = .ok res →
      navigate (interpNode ov doc1) (parsePointer subPath) 0 = .error pe →
      provide store reg primaryPath subPath ov extraPaths =
        .error (.pathNotFound pe)) ∧
    (∀ doc0 doc1 res pre tag conf post,
      alookup store primaryPath = some (.valid doc0) →
      expandNode store (storeFuel store) [] primaryPath doc0 = .ok doc1 →
      provideExtras store ov (resourcesOf (interpNode ov doc1))
        extraPaths = .ok res →
      navigate (interpNode ov doc1) (parsePointer subPath) 0 =
        .ok (.seq (pre ++ Node.map [(tag, conf)] :: post)) →
      (∀ e ∈ pre, ∃ t c, e = Node.map [(t, c)] ∧
        (t ∈ reg.primary ∨ t ∈ reg.deprecated)) →
      tag ∉ reg.primary → tag ∉ reg.deprecated →
      provide store reg primaryPath subPath ov extraPaths =
        .error (.unknownType tag)) := by
  refine ⟨?_, ?_, ?_, ?_⟩
  · intro h
    simp [provide, h]
  · intro h
    simp [provide, h]
  · intro doc0 doc1 res pe h1 h2 h3 h4
    simp [provide, h1, h2, h3, h4]
  · intro doc0 doc1 res pre tag conf post h1 h2 h3 h4 hpre hreg1 hreg2
    simp only [provide, h1, h2, h3, h4]
    exact buildStages_unknown reg pre tag conf post hpre hreg1 hreg2

/-- C3 witness: the four error cases on the concrete
`TestProcessorsProviderErrors`-shaped store. -/
theorem provide_error_taxonomy_witness :
    provide exStore exRegs "/t/missing.yaml" "/pipeline/processors" [] [] =
      .error (.fileNotFound "/t/missing.yaml") ∧
    provide exStore exRegs "/t/config1.yaml" "/pipeline/processors" [] [] =
      .error (.parseError "/t/config1.yaml") ∧
    provide exStore exRegs "/t/config2.yaml" "/not/a/valid/path" [] [] =
      .error (.pathNotFound (.missingKey "not" 0)) ∧
    provide exStore exRegs "/t/config3.yaml" "/pipeline/processors" [] [] =
      .error (.unknownType "doesnotexist") := by
  have hi2 : interpNode [] exDocText = exDocText := by
    simp [exDocText, interpNode, interpNodeMap, interpNodeList]
  have hi3 : interpNode [] exDocUnknown = exDocUnknown := by
    simp [exDocUnknown, interpNode, interpNodeMap, interpNodeList]
  refine ⟨(provide_error_taxonomy exStore exRegs "/t/missing.yaml"
      "/pipeline/processors" [] []).1 rfl,
    (provide_error_taxonomy exStore exRegs "/t/config1.yaml"
      "/pipeline/processors" [] []).2.1 rfl,
    (provide_error_taxonomy exStore exRegs "/t/config2.yaml"
      "/not/a/valid/path" [] []).2.2.1 exDocText exDocText _
      (.missingKey "not" 0) rfl ?_ rfl ?_,
    (provide_error_taxonomy exStore exRegs "/t/config3.yaml"
      "/pipeline/processors" [] []).2.2.2 exDocUnknown exDocUnknown _
      [] "doesnotexist" (.map []) [] rfl ?_ rfl ?_
      (fun e he => absurd he (List.not_mem_nil e)) (by decide)
      (List.not_mem_nil "doesnotexist")⟩
  · simp [exStore, exDocText, expandNode, expandMap, expandList, refKey]
  · rw [hi2]
    rfl
  · simp [exStore, exDocUnknown, expandNode, expandMap, expandList, refKey]
  · rw [hi3]
    rfl

/-! ### Reference-expansion lemmas -/

theorem expandNode_scalar (store : Store) (fuel : Nat)
    (stack : List (String × String)) (curPath s : String) :
    expandNode store fuel stack curPath (.scalar s) = .ok (.scalar s) := by
  rw [expandNode]

theorem expandNode_seq (store : Store) (fuel : Nat)
    (stack : List (String × String)) (curPath : String) (xs : List Node) :
    expandNode store fuel stack curPath (.seq xs) =
      match expandList store fuel stack curPath xs with
      | .ok ys => .ok (.seq ys)
      | .error e => .error e := by
  rw [expandNode]

theorem expandNode_map_nonref (store : Store) (fuel : Nat)
    (stack : List (String × String)) (curPath k : String) (v : Node)
    (hk : ¬ k = refKey) :
    expandNode store fuel stack curPath (.map [(k, v)]) =
      match expandMap store fuel stack curPath [(k, v)] with
      | .ok ys => .ok (.map ys)
      | .error e => .error e := by
  cases v <;> (rw [expandNode] <;> simp [hk])

theorem expandNode_map_other (store : Store) (fuel : Nat)
    (stack : List (String × String)) (curPath : String)
    (kvs : List (String × Node)) (h : ∀ (k : String) (v : Node), kvs ≠ [(k, v)]) :
    expandNode store fuel stack curPath (.map kvs) =
      match expandMap store fuel stack curPath kvs with
      | .ok ys => .ok (.map ys)
      | .error e => .error e := by
  rw [expandNode]
  exact fun k v hh => h k v hh

theorem expandList_nil (store : Store) (fuel : Nat)
    (stack : List (String × String)) (curPath : String) :
    expandList store fuel stack curPath [] = .ok [] := by
  rw [expandList]

theorem expandList_cons (store : Store) (fuel : Nat)
    (stack : List (String × String)) (curPath : String) (x : Node)
    (xs : List Node) :
    expandList store fuel stack curPath (x :: xs) =
      match expandNode store fuel stack curPath x with
      | .error e => .error e
      | .ok y =>
          match expandList store fuel stack curPath xs with
          | .error e => .error e
          | .ok ys => .ok (y :: ys) := by
  rw [expandList]

theorem expandMap_nil (store : Store) (fuel : Nat)
    (stack : List (String × String)) (curPath : String) :
    expandMap store fuel stack curPath [] = .ok [] := by
  rw [expandMap]

theorem expandMap_cons (store : Store) (fuel : Nat)
    (stack : List (String × String)) (curPath k : String) (v : Node)
    (kvs : List (String × Node)) :
    expandMap store fuel stack curPath ((k, v) :: kvs) =
      match expandNode store fuel stack curPath v with
      | .error e => .error e
      | .ok w =>
          match expandMap store fuel stack curPath kvs with
          | .error e => .error e
          | .ok ws => .ok ((k, w) :: ws) := by
  rw [expandMap]

theorem expandNode_ref_cycle (store : Store) (fuel : Nat)
    (stack : List (String × String)) (curPath raw p ptr : String)
    (hparse : parseRef curPath raw = some (p, ptr))
    (hmem : (p, ptr) ∈ stack) :
    expandNode store fuel stack curPath (.map [(refKey, .scalar raw)]) =
      .error (.referenceCycle p ptr) := by
  rw [expandNode]
  simp [hparse, hmem]

theorem expandNode_ref_step (store : Store) (fuel : Nat)
    (stack : List (String × String)) (curPath raw p ptr : String)
    (doc target : Node)
    (hparse : parseRef curPath raw = some (p, ptr))
    (hmem : (p, ptr) ∉ stack)
    (hload : loadDoc store p = .ok doc)
    (hnav : navigate doc (parsePointer ptr) 0 = .ok target) :
    expandNode store (fuel + 1) stack curPath
        (.map [(refKey, .scalar raw)]) =
      expandNode store fuel ((p, ptr) :: stack) p target := by
  rw [expandNode]
  simp [hparse, hmem, hload, hnav]

theorem expand_refFree_aux (store : Store) :
    ∀ N : Nat,
      (∀ (fuel : Nat) (stack : List (String × String)) (curPath : String)
        (n : Node), nodeCount n ≤ N → refFree n = true →
        expandNode store fuel stack curPath n = .ok n) ∧
      (∀ (fuel : Nat) (stack : List (String × String)) (curPath : String)
        (xs : List Node), nodeListCount xs ≤ N → refFreeList xs = true →
        expandList store fuel stack curPath xs = .ok xs) ∧
      (∀ (fuel : Nat) (stack : List (String × String)) (curPath : String)
        (kvs : List (String × Node)), nodeMapCount kvs ≤ N →
        refFreeMap kvs = true →
        expandMap store fuel stack curPath kvs = .ok kvs) := by
  intro N
  induction N using Nat.strong_induction_on with
  | _ N ih =>
    have hnode : ∀ (fuel : Nat) (stack : List (String × String))
        (curPath : String) (n : Node), nodeCount n ≤ N →
        refFree n = true →
        expandNode store fuel stack curPath n = .ok n := by
      intro fuel stack curPath n hc hf
      match n with
      | .scalar s => exact expandNode_scalar store fuel stack curPath s
      | .seq xs =>
          rw [nodeCount] at hc
          have hN1 : 1 ≤ N := by omega
          have hxs := (ih (N - 1) (by omega)).2.1 fuel stack curPath xs
            (by omega) (by rw [refFree] at hf; exact hf)
          rw [expandNode_seq, hxs]
      | .map kvs =>
          rw [nodeCount] at hc
          have hN1 : 1 ≤ N := by omega
          match kvs with
          | [(k, v)] =>
              rw [refFree] at hf
              simp only [Bool.and_eq_true, decide_eq_true_eq] at hf
              have hkvs := (ih (N - 1) (by omega)).2.2 fuel stack curPath
                [(k, v)] (by omega) hf.2
              rw [expandNode_map_nonref store fuel stack curPath k v hf.1,
                hkvs]
          | [] =>
              rw [expandNode_map_other store fuel stack curPath []
                (by intro k v h; simp at h), expandMap_nil]
          | (k1, v1) :: (k2, v2) :: tl =>
              simp only [refFree, Bool.and_eq_true] at hf
              have hkvs := (ih (N - 1) (by omega)).2.2 fuel stack curPath
                ((k1, v1) :: (k2, v2) :: tl) (by omega) hf.2
              rw [expandNode_map_other store fuel stack curPath _
                (by intro k v h; simp at h), hkvs]
    have hlist : ∀ (fuel : Nat) (stack : List (String × String))
        (curPath : String) (xs : List Node), nodeListCount xs ≤ N →
        refFreeList xs = true →
        expandList store fuel stack curPath xs = .ok xs := by
      intro fuel stack curPath xs
      induction xs with
      | nil => intro _ _; exact expandList_nil store fuel stack curPath
      | cons x tl ihl =>
          intro hc hf
          rw [nodeListCount] at hc
          rw [refFreeList] at hf
          simp only [Bool.and_eq_true] at hf
          have hcx : 1 ≤ nodeCount x := by
            cases x <;> rw [nodeCount] <;> omega
          have hx := hnode fuel stack curPath x (by omega) hf.1
          have htl := ihl (by omega) hf.2
          rw [expandList_cons, hx, htl]
    have hmap : ∀ (fuel : Nat) (stack : List (String × String))
        (curPath : String) (kvs : List (String × Node)),
        nodeMapCount kvs ≤ N → refFreeMap kvs = true →
        expandMap store fuel stack curPath kvs = .ok kvs := by
      intro fuel stack curPath kvs
      induction kvs with
      | nil => intro _ _; exact expandMap_nil store fuel stack curPath
      | cons kv tl ihm =>
          intro hc hf
          obtain ⟨k, v⟩ := kv
          rw [nodeMapCount] at hc
          rw [refFreeMap] at hf
          simp only [Bool.and_eq_true] at hf
          have hcv : 1 ≤ nodeCount v := by
            cases v <;> rw [nodeCount] <;> omega
          have hv := hnode fuel stack curPath v (by omega) hf.1
          have htl := ihm (by omega) hf.2
          rw [expandMap_cons, hv, htl]
    exact ⟨hnode, hlist, hmap⟩

/-- On a ref-free node, expansion is a no-op, at any fuel and stack. -/
theorem expandNode_refFree (store : Store) (fuel : Nat)
    (stack : List (String × String)) (curPath : String) (n : Node)
    (hf : refFree n = true) :
    expandNode store fuel stack curPath n = .ok n :=
  (expand_refFree_aux store (nodeCount n)).1 fuel stack curPath n le_rfl hf

theorem expandNode_chain (store : Store) (p ptr : String)
    (rest : List (String × String)) (v : Node)
    (hchain : RefChain store p ptr rest v) :
    ∀ (fuel : Nat) (stack : List (String × String)) (curPath raw : String),
    parseRef curPath raw = some (p, ptr) →
    rest.length < fuel →
    ((p, ptr) :: rest).Nodup →
    (∀ q ∈ (p, ptr) :: rest, q ∉ stack) →
    expandNode store fuel stack curPath (.map [(refKey, .scalar raw)]) =
      .ok v := by
  induction hchain with
  | last p ptr doc v hload hnav hfree =>
      intro fuel stack curPath raw hparse hlen hnd hstk
      obtain ⟨f, rfl⟩ : ∃ f, fuel = f + 1 := ⟨fuel - 1, by omega⟩
      rw [expandNode_ref_step store f stack curPath raw p ptr doc v hparse
        (hstk (p, ptr) (by simp)) hload hnav]
      exact expandNode_refFree store f ((p, ptr) :: stack) p v hfree
  | step p ptr doc raw2 p2 ptr2 rest2 v hload hnav hparse2 hrest ihc =>
      intro fuel stack curPath raw hparse hlen hnd hstk
      obtain ⟨f, rfl⟩ : ∃ f, fuel = f + 1 := ⟨fuel - 1, by omega⟩
      rw [expandNode_ref_step store f stack curPath raw p ptr doc _ hparse
        (hstk (p, ptr) (by simp)) hload hnav]
      apply ihc f ((p, ptr) :: stack) p raw2 hparse2
      · simp only [List.length_cons] at hlen
        omega
      · exact List.Nodup.of_cons hnd
      · intro q hq hqs
        rcases List.mem_cons.mp hqs with heq | hqs2
        · exact (List.nodup_cons.mp hnd).1 (heq ▸ hq)
        · exact hstk q (List.mem_cons_of_mem _ hq) hqs2

theorem expandNode_chain_cycle (store : Store) (p ptr : String)
    (rest : List (String × String)) (qc : String × String)
    (hchain : RefChainCycle store p ptr rest qc) :
    ∀ (fuel : Nat) (stack : List (String × String)) (curPath raw : String),
    parseRef curPath raw = some (p, ptr) →
    rest.length < fuel →
    ((p, ptr) :: rest).Nodup →
    (∀ q ∈ (p, ptr) :: rest, q ∉ stack) →
    qc ∈ (p, ptr) :: rest ++ stack →
    expandNode store fuel stack curPath (.map [(refKey, .scalar raw)]) =
      .error (.referenceCycle qc.1 qc.2) := by
  induction hchain with
  | last p ptr doc raw2 qc hload hnav hparse2 =>
      intro fuel stack curPath raw hparse hlen hnd hstk hqc
      obtain ⟨f, rfl⟩ : ∃ f, fuel = f + 1 := ⟨fuel - 1, by omega⟩
      rw [expandNode_ref_step store f stack curPath raw p ptr doc _ hparse
        (hstk (p, ptr) (by simp)) hload hnav]
      have hmem : qc ∈ (p, ptr) :: stack := by simpa using hqc
      exact expandNode_ref_cycle store f ((p, ptr) :: stack) p raw2 qc.1
        qc.2 (by simpa using hparse2) hmem
  | step p ptr doc raw2 p2 ptr2 rest2 qc hload hnav hparse2 hrest ihc =>
      intro fuel stack curPath raw hparse hlen hnd hstk hqc
      obtain ⟨f, rfl⟩ : ∃ f, fuel = f + 1 := ⟨fuel - 1, by omega⟩
      rw [expandNode_ref_step store f stack curPath raw p ptr doc _ hparse
        (hstk (p, ptr) (by simp)) hload hnav]
      apply ihc f ((p, ptr) :: stack) p raw2 hparse2
      · simp only [List.length_cons] at hlen
        omega
      · exact List.Nodup.of_cons hnd
      · intro q hq hqs
        rcases List.mem_cons.mp hqs with heq | hqs2
        · exact (List.nodup_cons.mp hnd).1 (heq ▸ hq)
        · exact hstk q (List.mem_cons_of_mem _ hq) hqs2
      · simp only [List.cons_append, List.mem_cons, List.mem_append] at hqc ⊢
        tauto

theorem expandMap_singleton (store : Store) (fuel : Nat)
    (stack : List (String × String)) (curPath k : String) (v w : Node)
    (h : expandNode store fuel stack curPath v = .ok w) :
    expandMap store fuel stack curPath [(k, v)] = .ok [(k, w)] := by
  rw [expandMap_cons, h, expandMap_nil]

theorem expandNode_map_single_nonref (store : Store) (fuel : Nat)
    (stack : List (String × String)) (curPath k : String) (v w : Node)
    (hk : ¬ k = refKey)
    (h : expandNode store fuel stack curPath v = .ok w) :
    expandNode store fuel stack curPath (.map [(k, v)]) =
      .ok (.map [(k, w)]) := by
  rw [expandNode_map_nonref store fuel stack curPath k v hk,
    expandMap_singleton store fuel stack curPath k v w h]

theorem provide_congr (store : Store) (reg : Registries)
    (p1 p2 sub : String) (ov : List (String × String))
    (extras : List String) (d1 d2 t : Node)
    (ha1 : alookup store p1 = some (.valid d1))
    (ha2 : alookup store p2 = some (.valid d2))
    (he1 : expandNode store (storeFuel store) [] p1 d1 = .ok t)
    (he2 : expandNode store (storeFuel store) [] p2 d2 = .ok t) :
    provide store reg p1 sub ov extras =
      provide store reg p2 sub ov extras := by
  simp only [provide, ha1, ha2, he1, he2]

/-- C4: for every non-cyclic reference chain of finite depth, expansion
terminates (`expandNode` is total, and the chain's bound on the recursion
depth suffices at every larger bound) and yields exactly the fully
inlined tree; for every chain that revisits an in-progress (document,
pointer) pair, expansion fails with `ReferenceCycle` — at every recursion
bound exceeding the chain length, so the stack guard and not the bound
rejects it — rather than diverging; and a document whose stage sequence
is declared entirely via `$ref` into another document's stage sub-path
assembles through `provide` to an identical stage sequence under every
override mapping (identical constructed stages produce identical
output; stage runtime behaviour is outside the modelled core). -/
theorem reference_expansion_correct :
    (∀ (store : Store) (p ptr : String) (rest : List (String × String))
       (v : Node), RefChain store p ptr rest v →
      ∀ (fuel : Nat) (stack : List (String × String)) (curPath raw : String),
      parseRef curPath raw = some (p, ptr) →
      rest.length < fuel →
      ((p, ptr) :: rest).Nodup →
      (∀ q ∈ (p, ptr) :: rest, q ∉ stack) →
      expandNode store fuel stack curPath (.map [(refKey, .scalar raw)]) =
        .ok v) ∧
    (∀ (store : Store) (p ptr : String) (rest : List (String × String))
       (qc : String × String), RefChainCycle store p ptr rest qc →
      ∀ (fuel : Nat) (stack : List (String × String)) (curPath raw : String),
      parseRef curPath raw = some (p, ptr) →
      rest.length < fuel →
      ((p, ptr) :: rest).Nodup →
      (∀ q ∈ (p, ptr) :: rest, q ∉ stack) →
      qc ∈ (p, ptr) :: rest ++ stack →
      expandNode store fuel stack curPath (.map [(refKey, .scalar raw)]) =
        .error (.referenceCycle qc.1 qc.2)) ∧
    (∀ ov : List (String × String),
      provide c4Store c4Regs "/t/c4b.yaml" "/pipeline/processors" ov [] =
        provide c4Store c4Regs "/t/c4a.yaml" "/pipeline/processors" ov []) := by
  refine ⟨?_, ?_, ?_⟩
  · intro store p ptr rest v hchain
    exact expandNode_chain store p ptr rest v hchain
  · intro store p ptr rest qc hchain
    exact expandNode_chain_cycle store p ptr rest qc hchain
  · intro ov
    have h1 : expandNode c4Store (storeFuel c4Store) [] "/t/c4a.yaml"
        c4Doc1 = .ok c4Doc1 :=
      expandNode_refFree c4Store (storeFuel c4Store) [] "/t/c4a.yaml"
        c4Doc1 rfl
    have hv : expandNode c4Store (storeFuel c4Store) [] "/t/c4b.yaml"
        (.map [(refKey,
          .scalar "/t/c4a.yaml#/pipeline/processors")]) = .ok c4Procs := by
      refine expandNode_chain c4Store "/t/c4a.yaml" "/pipeline/processors"
        [] c4Procs (RefChain.last _ _ c4Doc1 c4Procs rfl rfl rfl)
        (storeFuel c4Store) [] "/t/c4b.yaml" _ rfl ?_ (by simp) (by simp)
      rw [storeFuel]
      simp only [List.length_nil]
      omega
    have h2 : expandNode c4Store (storeFuel c4Store) [] "/t/c4b.yaml"
        c4Doc2 = .ok c4Doc1 := by
      have hstep := expandNode_map_single_nonref c4Store
        (storeFuel c4Store) [] "/t/c4b.yaml" "processors"
        (.map [(refKey, .scalar "/t/c4a.yaml#/pipeline/processors")])
        c4Procs (by decide) hv
      have houter := expandNode_map_single_nonref c4Store
        (storeFuel c4Store) [] "/t/c4b.yaml" "pipeline"
        (.map [("processors",
          .map [(refKey, .scalar "/t/c4a.yaml#/pipeline/processors")])])
        (.map [("processors", c4Procs)]) (by decide) hstep
      exact houter
    exact provide_congr c4Store c4Regs "/t/c4b.yaml" "/t/c4a.yaml"
      "/pipeline/processors" ov [] c4Doc2 c4Doc1 c4Doc1 rfl rfl h2 h1

/-- C4 witness: the one-hop chain of the C4 fixtures inlines to the raw
stage sequence, the self-referencing chain is rejected with
`ReferenceCycle`, and the `$ref`-declared document assembles identically
under a concrete override. -/
theorem reference_expansion_correct_witness :
    expandNode c4Store 1 [] "/t/c4b.yaml"
      (.map [(refKey, .scalar "/t/c4a.yaml#/pipeline/processors")]) =
      .ok c4Procs ∧
    expandNode c4Store 1 [] "/t/c4cycle.yaml"
      (.map [(refKey, .scalar "/t/c4cycle.yaml#/x")]) =
      .error (.referenceCycle "/t/c4cycle.yaml" "/x") ∧
    provide c4Store c4Regs "/t/c4b.yaml" "/pipeline/processors"
      [("FOO_VAR", "newvalue")] [] =
    provide c4Store c4Regs "/t/c4a.yaml" "/pipeline/processors"
      [("FOO_VAR", "newvalue")] [] := by
  refine ⟨?_, ?_, reference_expansion_correct.2.2 [("FOO_VAR", "newvalue")]⟩
  · exact reference_expansion_correct.1 c4Store "/t/c4a.yaml"
      "/pipeline/processors" [] c4Procs
      (RefChain.last _ _ c4Doc1 c4Procs rfl rfl rfl) 1 [] "/t/c4b.yaml" _
      rfl (by decide) (by simp) (by simp)
  · exact reference_expansion_correct.2.1 c4Store "/t/c4cycle.yaml" "/x"
      [] ("/t/c4cycle.yaml", "/x")
      (RefChainCycle.last _ _ c4CycleDoc
        "/t/c4cycle.yaml#/x" ("/t/c4cycle.yaml", "/x") rfl rfl rfl) 1 []
      "/t/c4cycle.yaml" _ rfl (by decide) (by simp) (by simp) (by simp)

end Benthos
